import Mathlib

/-!
A concurrent TCP port scanner (`main.go`).

Shallow embedding of the scanner: the port enumeration of `main`, the address
helpers, the body of `worker`, and the fan-out/fan-in of `main` and its
goroutines as an interleaving step function over an explicit state.

A Go string is a byte sequence; it is modelled as the list of its bytes, each
byte written as a `Char`.  Go's `int` is the 64-bit two's-complement integer; it
is modelled as an `Int` with explicit wrap-around where the code increments.
-/

namespace PortScanner

/-- Go strings, as the list of their bytes. -/
abbrev GoString := List Char

/-! ## Machine integers -/

/-- Largest value of Go's 64-bit `int`. -/
def maxInt : Int := 9223372036854775807

/-- Smallest value of Go's 64-bit `int`. -/
def minInt : Int := -9223372036854775808

/-- Values that a Go `int` can hold. -/
def isGoInt (i : Int) : Prop := minInt ≤ i ∧ i ≤ maxInt

instance (i : Int) : Decidable (isGoInt i) := by
  unfold isGoInt; infer_instance

/-- Two's-complement wrap-around of a 64-bit `int` result. -/
def wrapInt (i : Int) : Int :=
  (i + 9223372036854775808) % 18446744073709551616 - 9223372036854775808

/-! ## `strconv`: `ParseUint`, `ParseInt`, `Atoi`, `Itoa` (base 10, 64 bit) -/

/-- The two `strconv` errors: `ErrSyntax` and `ErrRange`. -/
inductive NumError where
  | errSyntax
  | errRange
deriving DecidableEq

/-- Largest `uint64`. -/
def maxUint64 : Nat := 18446744073709551615

/-- The digit loop of `strconv.ParseUint(s, 10, 64)`: `n` is the value read so
far.  A byte that is no decimal digit is a syntax error; `n >= cutoff` or a
wrapped `n*10 + d` is a range error that returns `maxVal`. -/
def parseUintLoop : GoString → Nat → Nat × Option NumError
  | [], n => (n, none)
  | c :: cs, n =>
    if 48 ≤ c.toNat ∧ c.toNat ≤ 57 then
      let d := c.toNat - 48
      if n ≥ maxUint64 / 10 + 1 then (maxUint64, some .errRange)
      else
        let n10 := n * 10
        let n1 := (n10 + d) % (maxUint64 + 1)
        if n1 < n10 ∨ n1 > maxUint64 then (maxUint64, some .errRange)
        else parseUintLoop cs n1
    else (0, some .errSyntax)

/-- Go's `strconv.ParseUint(s, 10, 64)`. -/
def ParseUint (s : GoString) : Nat × Option NumError :=
  if s = [] then (0, some .errSyntax) else parseUintLoop s 0

/-- Go's `strconv.ParseInt(s, 10, 0)`: an optional sign, then `ParseUint`; a
syntax error returns 0, a magnitude outside the `int64` range returns the
nearest bound with a range error. -/
def ParseInt (s : GoString) : Int × Option NumError :=
  match s with
  | [] => (0, some .errSyntax)
  | c :: cs =>
    let neg := decide (c = '-')
    let body := if c = '+' ∨ c = '-' then cs else s
    match ParseUint body with
    | (_, some .errSyntax) => (0, some .errSyntax)
    | (un, _) =>
      if ¬ neg ∧ un ≥ 9223372036854775808 then (9223372036854775807, some .errRange)
      else if neg ∧ un > 9223372036854775808 then (-9223372036854775808, some .errRange)
      else (if neg then -(un : Int) else (un : Int), none)

/-- Go's `strconv.Atoi`: `ParseInt(s, 10, 0)` (its fast path for short strings
returns the same value and error as the general path). -/
def Atoi (s : GoString) : Int × Option NumError := ParseInt s

/-- The byte of a decimal digit. -/
def digitByte (d : Nat) : Char := Char.ofNat (48 + d)

/-- The decimal digits of `n`, most significant first, put in front of `acc`
(the loop of `strconv.formatBits` for base 10, which fills its buffer from the
right). -/
def formatBits : Nat → Nat → GoString → GoString
  | 0, _, acc => acc
  | fuel + 1, n, acc =>
    if n / 10 = 0 then digitByte (n % 10) :: acc
    else formatBits fuel (n / 10) (digitByte (n % 10) :: acc)

/-- Go's `strconv.Itoa`: the decimal digits of the magnitude, after a `-` for a
negative number. -/
def Itoa (i : Int) : GoString :=
  if i < 0 then '-' :: formatBits (i.natAbs + 1) i.natAbs []
  else formatBits (i.natAbs + 1) i.natAbs []

/-! ## `strings.Split` on a one-byte separator -/

/-- Go's `strings.Split(s, sep)` for a separator of one byte, as `main` calls it
with `","`: the pieces between the separators, in order, empty pieces kept. -/
def Split : GoString → Char → List GoString
  | [], _ => [[]]
  | c :: cs, sep =>
    if c = sep then [] :: Split cs sep
    else
      match Split cs sep with
      | [] => [[c]]
      | t :: ts => (c :: t) :: ts

/-! ## Port enumeration (`main`, lines 81-97) -/

/-- The command-line flags of `main`. -/
structure Flags where
  target : GoString
  startPort : Int
  endPort : Int
  workers : Int
  timeout : Int
  bannerGrab : Bool
  jsonOutput : Bool
  ports : GoString

/-- How the enumeration of `main` ends: `os.Exit(1)` after printing
`Invalid port <token>`, the slice `scanPorts`, or a loop that is still running
when the fuel of the model is used up. -/
inductive PortsResult where
  | exitInvalidPort (token : GoString)
  | ok (scanPorts : List Int)
  | running
deriving DecidableEq

/-- The loop over the tokens of `-ports`: `Atoi` each token, exit on the first
error, append the value otherwise. -/
def parsePortList : List GoString → List Int → PortsResult
  | [], acc => .ok acc
  | portStr :: rest, acc =>
    match Atoi portStr with
    | (port, none) => parsePortList rest (acc ++ [port])
    | (_, some _) => .exitInvalidPort portStr

/-- The loop `for p := start; p <= end; p++ { append }` over Go ints: `p++`
wraps around, and the first argument bounds the iterations of the model. -/
def rangeLoop : Nat → Int → Int → List Int → PortsResult
  | 0, _, _, _ => .running
  | fuel + 1, p, endPort, acc =>
    if p ≤ endPort then rangeLoop fuel (wrapInt (p + 1)) endPort (acc ++ [p])
    else .ok acc

/-- The port enumeration of `main`: the explicit list when `-ports` is not
empty, the range otherwise. -/
def enumeratePorts (fuel : Nat) (f : Flags) : PortsResult :=
  if f.ports ≠ [] then parsePortList (Split f.ports ',') []
  else rangeLoop fuel f.startPort f.endPort []

/-! ## Specification-side notions for the port list -/

/-- The value of a string of decimal digits read after the value `n`. -/
def digitsValue : GoString → Nat → Option Nat
  | [], n => some n
  | c :: cs, n =>
    if 48 ≤ c.toNat ∧ c.toNat ≤ 57 then digitsValue cs (n * 10 + (c.toNat - 48)) else none

/-- The integer a token denotes as a decimal numeral: an optional sign and at
least one digit; `none` when the token is no decimal numeral. -/
def decimalValue (t : GoString) : Option Int :=
  match t with
  | [] => none
  | c :: cs =>
    let body := if c = '+' ∨ c = '-' then cs else t
    if body = [] then none
    else
      match digitsValue body 0 with
      | none => none
      | some n => some (if c = '-' then -(n : Int) else (n : Int))

/-- A token that is the decimal numeral of a Go `int`. -/
def isIntToken (t : GoString) : Prop :=
  ∃ v, decimalValue t = some v ∧ isGoInt v

/-- A token that parses as an integer in [1, 65535]. -/
def isPortToken (t : GoString) : Prop :=
  ∃ v, decimalValue t = some v ∧ 1 ≤ v ∧ v ≤ 65535

/-! ## `net.JoinHostPort`, `net.SplitHostPort`, `extractPortFromAddr` -/

/-- Go's `bytealg.IndexByteString`: the index of the first `c` in `s`, `none`
for Go's -1. -/
def indexByte : GoString → Char → Option Nat
  | [], _ => none
  | x :: xs, c => if x = c then some 0 else (indexByte xs c).map (· + 1)

/-- Go's `bytealg.LastIndexByteString`: the index of the last `c` in `s`. -/
def lastIndexByte : GoString → Char → Option Nat
  | [], _ => none
  | x :: xs, c =>
    match lastIndexByte xs c with
    | some i => some (i + 1)
    | none => if x = c then some 0 else none

/-- Go's `net.JoinHostPort`: a host with a colon is put in brackets. -/
def JoinHostPort (host port : GoString) : GoString :=
  if (indexByte host ':').isSome then '[' :: (host ++ ']' :: ':' :: port)
  else host ++ ':' :: port

/-- The reasons for which `net.SplitHostPort` returns an `AddrError`. -/
inductive AddrError where
  | missingPort
  | tooManyColons
  | missingBracket
  | unexpectedOpen
  | unexpectedClose
deriving DecidableEq

/-- The end of `net.SplitHostPort`: no `[` from position `j` on, no `]` from
position `k` on, and the port is what follows the last colon, at `i`. -/
def splitTail (hostport host : GoString) (i j k : Nat) :
    GoString × GoString × Option AddrError :=
  if (indexByte (hostport.drop j) '[').isSome then ([], [], some .unexpectedOpen)
  else if (indexByte (hostport.drop k) ']').isSome then ([], [], some .unexpectedClose)
  else (host, hostport.drop (i + 1), none)

/-- Go's `net.SplitHostPort`: host, port and error; on an error host and port
are empty. -/
def SplitHostPort (hostport : GoString) : GoString × GoString × Option AddrError :=
  match lastIndexByte hostport ':' with
  | none => ([], [], some .missingPort)
  | some i =>
    if hostport.head? = some '[' then
      match indexByte hostport ']' with
      | none => ([], [], some .missingBracket)
      | some e =>
        if e + 1 = hostport.length then ([], [], some .missingPort)
        else if e + 1 = i then splitTail hostport ((hostport.take e).drop 1) i 1 (e + 1)
        else if hostport.get? (e + 1) = some ':' then ([], [], some .tooManyColons)
        else ([], [], some .missingPort)
    else
      if (indexByte (hostport.take i) ':').isSome then ([], [], some .tooManyColons)
      else splitTail hostport (hostport.take i) i 0 0

/-- The function `extractPortFromAddr` of `main.go`: both errors are dropped,
the port is what `Atoi` returns for the port string. -/
def extractPortFromAddr (addr : GoString) : Int :=
  (Atoi (SplitHostPort addr).2.1).1

/-! ## The body of `worker` for one task -/

/-- The record `ScanResult` of `main.go`. -/
structure ScanResult where
  Target : GoString
  Port : Int
  IsOpen : Bool
  Banner : GoString
deriving DecidableEq

/-- What the one `conn.Read` of a connection returns: the bytes the peer has
for the reader and the error (`none` for nil, else the text of `err.Error()`). -/
structure ReadOutcome where
  data : GoString
  err : Option GoString
deriving DecidableEq

/-- What `dialer.Dial("tcp", addr)` returns: an error, or a connection (with
what its first read will return). -/
inductive DialOutcome where
  | failed
  | connected (read : ReadOutcome)
deriving DecidableEq

/-- Whether a dial connected. -/
def DialOutcome.isConnected : DialOutcome → Bool
  | .failed => false
  | .connected _ => true

/-- The call `dialer.Dial("tcp", addr)`: `net.Dial` first splits the address
with `SplitHostPort` and returns its error for an address that does not split;
for an address that splits it returns what the network answers. -/
def Dial (addr : GoString) (network : DialOutcome) : DialOutcome :=
  if (SplitHostPort addr).2.2 = none then network else .failed

/-- The call `conn.Read(buf)`: at most `len(buf)` bytes are copied to the front
of the buffer; returns the buffer, the count and the error. -/
def connRead (r : ReadOutcome) (buf : GoString) : GoString × Nat × Option GoString :=
  let got := r.data.take buf.length
  (got ++ buf.drop got.length, got.length, r.err)

/-- One iteration of the loop of `worker` after the dial of `addr`: nothing is
sent when the dial failed; otherwise the result that is sent on `results`. -/
def workerBody (addr : GoString) (d : DialOutcome) (bannerGrab : Bool) : Option ScanResult :=
  match d with
  | .failed => none
  | .connected r =>
    let result : ScanResult :=
      { Target := addr, Port := extractPortFromAddr addr, IsOpen := true, Banner := [] }
    if bannerGrab then
      let banner := List.replicate 1024 (Char.ofNat 0)
      match connRead r banner with
      | (banner, n, err) =>
        if err = none ∨ err = some ['E', 'O', 'F'] then
          some { result with Banner := banner.take n }
        else some result
    else some result

/-! ## The goroutines of `main` as an interleaving machine -/

/-- Where a worker goroutine stands: at the receive of `for addr := range tasks`,
before the dial of a received address, before the send of a result, or returned. -/
inductive WorkerPc where
  | recv
  | dial (addr : GoString)
  | send (result : ScanResult)
  | done
deriving DecidableEq

/-- A worker goroutine: its position, the connections it has opened and whose
deferred `Close` has not run yet (newest first), and the log of its dials. -/
structure Worker where
  pc : WorkerPc
  conns : List GoString
  dialed : List (GoString × DialOutcome)
deriving DecidableEq

/-- Where `main` stands: in the loop that starts the workers (with its counter
`i`), in the loop that feeds the task queue (with the ports still to send; the
loop ends with `close(tasks)`), before the start of the goroutine that waits for
the workers, in the loop over `results`, or past it. -/
inductive MainPc where
  | spawn (i : Int)
  | feed (rest : List Int)
  | startCloser
  | collect
  | finished
deriving DecidableEq

/-- The goroutine `wg.Wait(); close(results)`. -/
inductive CloserPc where
  | notStarted
  | waiting
  | done
deriving DecidableEq

/-- The shared state: both channels (buffer and closed flag), the counter of the
`WaitGroup`, the goroutines, the slice `openPorts`, every result `main` has
received in arrival order, and whether a goroutine has panicked. -/
structure State where
  pc : MainPc
  tasks : List GoString
  tasksClosed : Bool
  results : List ScanResult
  resultsClosed : Bool
  wg : Nat
  workers : List Worker
  closer : CloserPc
  openPorts : List ScanResult
  collected : List ScanResult
  panicked : Bool
deriving DecidableEq

/-- One scheduling decision: which goroutine takes its next step; for a worker
also what the network answers if that step is a dial (see `Dial`). -/
inductive Event where
  | main
  | worker (i : Nat) (d : DialOutcome)
  | closer

/-- The state when `main` reaches the loop that starts the workers. -/
def initState : State :=
  { pc := .spawn 1, tasks := [], tasksClosed := false, results := [], resultsClosed := false,
    wg := 0, workers := [], closer := .notStarted, openPorts := [], collected := [],
    panicked := false }

/-- Capacity of the channel `tasks`. -/
def tasksCap : Nat := 100

/-- The next step of `main`; `none` when `main` is blocked or has returned. -/
def stepMain (f : Flags) (scanPorts : List Int) (s : State) : Option State :=
  match s.pc with
  | .spawn i =>
    if i ≤ f.workers then
      some { s with wg := s.wg + 1, workers := s.workers ++ [⟨.recv, [], []⟩],
                    pc := .spawn (wrapInt (i + 1)) }
    else some { s with pc := .feed scanPorts }
  | .feed (port :: rest) =>
    if s.tasks.length < tasksCap then
      some { s with tasks := s.tasks ++ [JoinHostPort f.target (Itoa port)], pc := .feed rest }
    else none
  | .feed [] => some { s with tasksClosed := true, pc := .startCloser }
  | .startCloser => some { s with closer := .waiting, pc := .collect }
  | .collect =>
    match s.results with
    | result :: rest =>
      some { s with results := rest, collected := s.collected ++ [result],
                    openPorts := if result.IsOpen then s.openPorts ++ [result] else s.openPorts }
    | [] => if s.resultsClosed then some { s with pc := .finished } else none
  | .finished => none

/-- The next step of worker `i`; `none` when it is blocked, has returned or
does not exist.  A send on the closed `results` and a `Done` on a zero counter
panic. -/
def stepWorker (f : Flags) (scanPorts : List Int) (s : State) (i : Nat) (d : DialOutcome) :
    Option State :=
  match s.workers.get? i with
  | none => none
  | some w =>
    match w.pc with
    | .recv =>
      match s.tasks with
      | addr :: rest =>
        some { s with tasks := rest, workers := s.workers.set i { w with pc := .dial addr } }
      | [] =>
        if s.tasksClosed then
          if s.wg = 0 then some { s with panicked := true }
          else some { s with wg := s.wg - 1,
                             workers := s.workers.set i { w with pc := .done, conns := [] } }
        else none
    | .dial addr =>
      match workerBody addr (Dial addr d) f.bannerGrab with
      | none =>
        some { s with workers :=
                 (s.workers.set i
                   { w with pc := .recv, dialed := w.dialed ++ [(addr, Dial addr d)] }) }
      | some result =>
        some { s with workers :=
                 (s.workers.set i
                   ⟨.send result, addr :: w.conns, w.dialed ++ [(addr, Dial addr d)]⟩) }
    | .send result =>
      if s.resultsClosed then some { s with panicked := true }
      else if s.results.length < scanPorts.length then
        some { s with results := s.results ++ [result],
                      workers := s.workers.set i { w with pc := .recv } }
      else none
    | .done => none

/-- The next step of the goroutine `wg.Wait(); close(results)`. -/
def stepCloser (s : State) : Option State :=
  match s.closer with
  | .waiting =>
    if s.wg = 0 then
      if s.resultsClosed then some { s with panicked := true }
      else some { s with resultsClosed := true, closer := .done }
    else none
  | _ => none

/-- One step of the program under a scheduling decision; a panicked program
takes no step. -/
def step (f : Flags) (scanPorts : List Int) (s : State) (e : Event) : Option State :=
  if s.panicked then none
  else
    match e with
    | .main => stepMain f scanPorts s
    | .worker i d => stepWorker f scanPorts s i d
    | .closer => stepCloser s

/-- The state after a schedule, `none` when one of its decisions names a
goroutine that cannot step. -/
def run (f : Flags) (scanPorts : List Int) : State → List Event → Option State
  | s, [] => some s
  | s, e :: es =>
    match step f scanPorts s e with
    | none => none
    | some s1 => run f scanPorts s1 es

/-- The line `Total ports scanned: %d` of the summary. -/
def totalPortsScanned (scanPorts : List Int) : Nat := scanPorts.length

/-- Specification side: the closed integer interval from `a` to `b`, ascending. -/
def interval (a b : Int) : List Int :=
  (List.range (b - a + 1).toNat).map (fun (k : Nat) => a + (k : Int))

/-! ## The transitions of the machine, one by one -/

/-- The transitions of `step`, each with its guard: `Step f scanPorts s s1` holds
when some goroutine can take the program from `s` to `s1`.  The outcome `d` of a
dial is one that `Dial` returns: connected only at an address that splits. -/
inductive Step (f : Flags) (scanPorts : List Int) : State → State → Prop where
  | spawn (s : State) (i : Int) :
      s.panicked = false → s.pc = .spawn i → i ≤ f.workers →
      Step f scanPorts s
        { s with wg := s.wg + 1, workers := s.workers ++ [⟨.recv, [], []⟩],
                 pc := .spawn (wrapInt (i + 1)) }
  | spawnEnd (s : State) (i : Int) :
      s.panicked = false → s.pc = .spawn i → ¬ i ≤ f.workers →
      Step f scanPorts s { s with pc := .feed scanPorts }
  | feed (s : State) (port : Int) (rest : List Int) :
      s.panicked = false → s.pc = .feed (port :: rest) → s.tasks.length < tasksCap →
      Step f scanPorts s
        { s with tasks := s.tasks ++ [JoinHostPort f.target (Itoa port)], pc := .feed rest }
  | closeTasks (s : State) :
      s.panicked = false → s.pc = .feed [] →
      Step f scanPorts s { s with tasksClosed := true, pc := .startCloser }
  | startCloser (s : State) :
      s.panicked = false → s.pc = .startCloser →
      Step f scanPorts s { s with closer := .waiting, pc := .collect }
  | collectOne (s : State) (result : ScanResult) (rest : List ScanResult) :
      s.panicked = false → s.pc = .collect → s.results = result :: rest →
      Step f scanPorts s
        { s with results := rest, collected := s.collected ++ [result],
                 openPorts := if result.IsOpen then s.openPorts ++ [result] else s.openPorts }
  | finish (s : State) :
      s.panicked = false → s.pc = .collect → s.results = [] → s.resultsClosed = true →
      Step f scanPorts s { s with pc := .finished }
  | recvTask (s : State) (i : Nat) (w : Worker) (addr : GoString) (rest : List GoString) :
      s.panicked = false → s.workers.get? i = some w → w.pc = .recv → s.tasks = addr :: rest →
      Step f scanPorts s
        { s with tasks := rest, workers := s.workers.set i { w with pc := .dial addr } }
  | donePanic (s : State) (i : Nat) (w : Worker) :
      s.panicked = false → s.workers.get? i = some w → w.pc = .recv → s.tasks = [] →
      s.tasksClosed = true → s.wg = 0 →
      Step f scanPorts s { s with panicked := true }
  | workerReturn (s : State) (i : Nat) (w : Worker) :
      s.panicked = false → s.workers.get? i = some w → w.pc = .recv → s.tasks = [] →
      s.tasksClosed = true → s.wg ≠ 0 →
      Step f scanPorts s
        { s with wg := s.wg - 1,
                 workers := s.workers.set i { w with pc := .done, conns := [] } }
  | dialFail (s : State) (i : Nat) (w : Worker) (addr : GoString) (d : DialOutcome) :
      s.panicked = false → s.workers.get? i = some w → w.pc = .dial addr →
      (d.isConnected = true → (SplitHostPort addr).2.2 = none) →
      workerBody addr d f.bannerGrab = none →
      Step f scanPorts s
        { s with workers :=
            s.workers.set i { w with pc := .recv, dialed := w.dialed ++ [(addr, d)] } }
  | dialOk (s : State) (i : Nat) (w : Worker) (addr : GoString) (d : DialOutcome)
      (result : ScanResult) :
      s.panicked = false → s.workers.get? i = some w → w.pc = .dial addr →
      (d.isConnected = true → (SplitHostPort addr).2.2 = none) →
      workerBody addr d f.bannerGrab = some result →
      Step f scanPorts s
        { s with workers :=
            s.workers.set i ⟨.send result, addr :: w.conns, w.dialed ++ [(addr, d)]⟩ }
  | sendPanic (s : State) (i : Nat) (w : Worker) (result : ScanResult) :
      s.panicked = false → s.workers.get? i = some w → w.pc = .send result →
      s.resultsClosed = true →
      Step f scanPorts s { s with panicked := true }
  | send (s : State) (i : Nat) (w : Worker) (result : ScanResult) :
      s.panicked = false → s.workers.get? i = some w → w.pc = .send result →
      s.resultsClosed = false → s.results.length < scanPorts.length →
      Step f scanPorts s
        { s with results := s.results ++ [result],
                 workers := s.workers.set i { w with pc := .recv } }
  | closerPanic (s : State) :
      s.panicked = false → s.closer = .waiting → s.wg = 0 → s.resultsClosed = true →
      Step f scanPorts s { s with panicked := true }
  | closeResults (s : State) :
      s.panicked = false → s.closer = .waiting → s.wg = 0 → s.resultsClosed = false →
      Step f scanPorts s { s with resultsClosed := true, closer := .done }

/-- The addresses `main` sends on `tasks`, in order. -/
def enumeratedAddrs (f : Flags) (scanPorts : List Int) : List GoString :=
  scanPorts.map (fun port => JoinHostPort f.target (Itoa port))

/-- The addresses `main` has still to send on `tasks`. -/
def unfed (f : Flags) (scanPorts : List Int) (s : State) : List GoString :=
  match s.pc with
  | .spawn _ => enumeratedAddrs f scanPorts
  | .feed rest => enumeratedAddrs f rest
  | _ => []

/-- The address a worker has received and not yet dialed. -/
def inflight (w : Worker) : List GoString :=
  match w.pc with
  | .dial addr => [addr]
  | _ => []

/-- The result a worker has built and not yet sent. -/
def pendingSend (w : Worker) : List ScanResult :=
  match w.pc with
  | .send result => [result]
  | _ => []

/-- The results a worker has built so far, one for each dial that connected. -/
def produced (bannerGrab : Bool) (w : Worker) : List ScanResult :=
  w.dialed.filterMap (fun ad => workerBody ad.1 ad.2 bannerGrab)

/-- What the workers of a list hold, one worker after the other. -/
def gather {α : Type} (g : Worker → List α) : List Worker → List α
  | [] => []
  | w :: ws => g w ++ gather g ws

/-- The workers that have not returned. -/
def running (ws : List Worker) : List Worker :=
  ws.filter (fun w => w.pc ≠ .done)

/-- The addresses a worker has dialed, in order. -/
def dialedAddrs (w : Worker) : List GoString := w.dialed.map Prod.fst

/-- The addresses at which a worker's dial connected, in order. -/
def connectedAddrs (w : Worker) : List GoString :=
  w.dialed.filterMap (fun ad =>
    match ad.2 with
    | .connected _ => some ad.1
    | .failed => none)

/-- What the data flow of the machine keeps true: every enumerated address is
in exactly one place (dialed by a worker, held by a worker, in the task queue,
or still to be sent), every result built by a worker is in exactly one place
(collected, in the results queue, or held by a worker), `openPorts` is the open
part of what was collected, and a worker that has not returned holds open every
connection it has opened. -/
structure Flow (f : Flags) (scanPorts : List Int) (s : State) : Prop where
  tasksPerm :
    (gather dialedAddrs s.workers ++ gather inflight s.workers ++ s.tasks
      ++ unfed f scanPorts s).Perm (enumeratedAddrs f scanPorts)
  resultsPerm :
    (s.collected ++ s.results ++ gather pendingSend s.workers).Perm
      (gather (produced f.bannerGrab) s.workers)
  openPorts_eq : s.openPorts = s.collected.filter (fun r => r.IsOpen)
  conns : ∀ w ∈ s.workers,
    w.conns = if w.pc = .done then [] else (connectedAddrs w).reverse

/-- What the dial logs keep true: a dial has connected only at an address that
`SplitHostPort` accepts. -/
def Dialable (s : State) : Prop :=
  ∀ w ∈ s.workers, ∀ ad ∈ w.dialed,
    ad.2.isConnected = true → (SplitHostPort ad.1).2.2 = none

/-- What the control of the machine keeps true: nothing has panicked, the
counter of the `WaitGroup` is the number of workers that have not returned, the
closing goroutine runs only once `main` collects, `tasks` is closed exactly
from the end of the feeding loop on, `results` is closed exactly when the
closing goroutine is through, which it is only when every worker has returned,
`main` is past its collecting loop only when `results` is closed and drained, a
worker has returned only when `tasks` is closed and drained, and the workers
have been started before the feeding begins. -/
structure Ctl (f : Flags) (s : State) : Prop where
  noPanic : s.panicked = false
  wg_eq : s.wg = (running s.workers).length
  closer_started : s.closer = .notStarted ↔ (s.pc ≠ .collect ∧ s.pc ≠ .finished)
  tasksClosed_iff :
    s.tasksClosed = true ↔ (s.pc = .startCloser ∨ s.pc = .collect ∨ s.pc = .finished)
  resultsClosed_iff : s.resultsClosed = true ↔ s.closer = .done
  closer_done : s.closer = .done → running s.workers = []
  finished : s.pc = .finished → s.resultsClosed = true ∧ s.results = []
  returned : ∀ w ∈ s.workers, w.pc = .done → s.tasksClosed = true ∧ s.tasks = []
  spawning : ∀ i, s.pc = .spawn i → (i = 1 ∧ s.workers = []) ∨ s.workers ≠ []
  spawned : (∀ i, s.pc ≠ .spawn i) → 1 ≤ f.workers → s.workers ≠ []

/-- What a run with one worker keeps true on top: there is at most one worker,
and the places of the addresses and of the results follow each other in the
order of the enumeration (what was dialed, what the worker holds, the queue,
what is still to be sent; what was collected, the queue, what the worker holds). -/
structure Serial (f : Flags) (scanPorts : List Int) (s : State) : Prop where
  atMostOne : s.workers.length ≤ 1
  spawnCount : ∀ i, s.pc = .spawn i → (i = 1 ∧ s.workers = []) ∨ (i = 2 ∧ s.workers ≠ [])
  tasksOrder :
    gather dialedAddrs s.workers ++ gather inflight s.workers ++ s.tasks
      ++ unfed f scanPorts s = enumeratedAddrs f scanPorts
  resultsOrder :
    s.collected ++ s.results ++ gather pendingSend s.workers
      = gather (produced f.bannerGrab) s.workers

/-- What the starting loop keeps true when the number of workers is below the
largest `int`: its counter `i` has started `i - 1` workers, and after the loop
`-workers` many workers (none for a number below 1) have been started. -/
structure Pool (f : Flags) (s : State) : Prop where
  counter : ∀ i, s.pc = .spawn i →
    1 ≤ i ∧ i ≤ max 1 (f.workers + 1) ∧ (s.workers.length : Int) = i - 1
  started : (∀ i, s.pc ≠ .spawn i) → s.workers.length = f.workers.toNat

/-- The work a worker has still to do before it is back at the receive. -/
def workerWeight (w : Worker) : Nat :=
  match w.pc with
  | .recv => 1
  | .dial _ => 4
  | .send _ => 3
  | .done => 0

/-- The sum of the weights of a list of workers. -/
def load : List Worker → Nat
  | [] => 0
  | w :: ws => workerWeight w + load ws

/-- A bound on the number of steps the program can still take: every step
lowers it. -/
def stepsLeft (f : Flags) (scanPorts : List Int) (s : State) : Nat :=
  (match s.pc with
    | .spawn i => 2 * (f.workers + 1 - i).toNat + 5 * scanPorts.length + 5
    | .feed rest => 5 * rest.length + 4
    | .startCloser => 3
    | .collect => 2
    | .finished => 0)
  + 4 * s.tasks.length + load s.workers + s.results.length
  + (match s.closer with
    | .done => 0
    | _ => 1)

/-- How a run of the whole program stands after a schedule: exited with
`Invalid port <token>`, still enumerating, in a state of the goroutines, or the
schedule was not executable. -/
inductive ScanOutcome where
  | exited (token : GoString)
  | enumerating
  | state (s : State)
  | notEnabled
deriving DecidableEq

/-- The program `main`: the enumeration, then the goroutines under a schedule. -/
def scan (fuel : Nat) (f : Flags) (events : List Event) : ScanOutcome :=
  match enumeratePorts fuel f with
  | .exitInvalidPort token => .exited token
  | .running => .enumerating
  | .ok scanPorts =>
    match run f scanPorts initState events with
    | some s => .state s
    | none => .notEnabled

/-- The number of worker goroutines a run has started. -/
def ScanOutcome.workersStarted : ScanOutcome → Nat
  | .state s => s.workers.length
  | _ => 0

/-- The dials a run has made. -/
def ScanOutcome.dials : ScanOutcome → List (GoString × DialOutcome)
  | .state s => gather Worker.dialed s.workers
  | _ => []

/-- Some goroutine can take a step from `s`, whatever the network answers to a
dial. -/
def canStep (f : Flags) (scanPorts : List Int) (s : State) : Prop :=
  (step f scanPorts s .main).isSome = true ∨ (step f scanPorts s .closer).isSome = true ∨
    ∃ i, ∀ d, (step f scanPorts s (.worker i d)).isSome = true

/-! ## Concrete inputs -/

/-- The flags at their default values. -/
def defaultFlags : Flags :=
  { target := "scanme.nmap.org".toList, startPort := 1, endPort := 1024, workers := 100,
    timeout := 5, bannerGrab := false, jsonOutput := false, ports := [] }

/-- The call with `-ports 80,443,8080`. -/
def flagsList : Flags := { defaultFlags with ports := "80,443,8080".toList }

/-- The call with `-ports 80,http`. -/
def flagsBadToken : Flags := { defaultFlags with ports := "80,http".toList }

/-- The call with `-ports 9223372036854775808`, the decimal integer 2^63. -/
def flagsHugeToken : Flags := { defaultFlags with ports := "9223372036854775808".toList }

/-- The call with `-ports 70000`. -/
def flagsBigPort : Flags := { defaultFlags with ports := "70000".toList }

/-- The call with `-start-port 5000 -end-port 5002`. -/
def flagsRange : Flags := { defaultFlags with startPort := 5000, endPort := 5002 }

/-- The call with `-start-port 10 -end-port 5`. -/
def flagsEmptyRange : Flags := { defaultFlags with startPort := 10, endPort := 5 }

/-- The call with `-start-port` and `-end-port` both at the largest `int`. -/
def flagsMaxRange : Flags :=
  { defaultFlags with startPort := 9223372036854775807, endPort := 9223372036854775807 }

/-- One worker, banner grabbing on, host `h`. -/
def flagsOne : Flags := { defaultFlags with target := ['h'], workers := 1, bannerGrab := true }

/-- Two workers, banner grabbing on, host `h`. -/
def flagsTwo : Flags := { defaultFlags with target := ['h'], workers := 2, bannerGrab := true }

/-- A listener that sends `HELLO\n` at once. -/
def hello : DialOutcome := .connected ⟨"HELLO\n".toList, none⟩

/-- One worker, banner grabbing on, the bracketed host `[127.0.0.1]`. -/
def flagsBracketed : Flags :=
  { defaultFlags with target := "[127.0.0.1]".toList, workers := 1, bannerGrab := true }

/-- One worker, banner grabbing on, the bracketed host `[::1]`, for which
`JoinHostPort` builds an address that does not split. -/
def flagsBracketed6 : Flags :=
  { defaultFlags with target := "[::1]".toList, workers := 1, bannerGrab := true }

/-- A run of one worker over one port where the network would answer hello. -/
def runOnePort : List Event :=
  [.main, .main, .main, .main, .main, .worker 0 hello, .worker 0 hello, .worker 0 hello,
   .worker 0 hello, .closer, .main, .main]

/-- The same run when the dial fails: nothing is sent, so `main` ends one step
earlier. -/
def runOnePortFailed : List Event :=
  [.main, .main, .main, .main, .main, .worker 0 hello, .worker 0 hello, .worker 0 hello,
   .closer, .main]

/-- A run of one worker over the port 81, where nothing listens: `main` starts
the worker, feeds and closes the queue and starts the closing goroutine; the
worker receives, dials in vain and returns; `results` is closed; `main` ends. -/
def runRefused : List Event :=
  [.main, .main, .main, .main, .main, .worker 0 .failed, .worker 0 .failed, .worker 0 .failed,
   .closer, .main]

/-- A run of one worker over the ports 80 (a listener that says hello) and 81
(nothing listens). -/
def runOneWorker : List Event :=
  [.main, .main, .main, .main, .main, .main, .worker 0 hello, .worker 0 hello, .worker 0 hello,
   .worker 0 .failed, .worker 0 .failed, .worker 0 .failed, .closer, .main, .main]

/-- The start of `runOneWorker`, up to the moment the worker has sent its first
result and received its second task. -/
def runToSecondTask : List Event :=
  [.main, .main, .main, .main, .main, .main, .worker 0 hello, .worker 0 hello, .worker 0 hello,
   .worker 0 .failed]

/-- A run of two workers over the ports 80 and 81: the second worker takes the
first task. -/
def runTwoWorkers : List Event :=
  [.main, .main, .main, .main, .main, .main, .main, .worker 1 .failed, .worker 0 hello,
   .worker 0 hello, .worker 1 .failed, .worker 0 hello, .worker 0 hello, .worker 1 .failed,
   .closer, .main, .main]

/-- The state in which a run ends (the start state if the schedule cannot run). -/
def endOf (f : Flags) (scanPorts : List Int) (es : List Event) : State :=
  (run f scanPorts initState es).getD initState

/-- Three outcomes in arrival order: open for port 80, marked closed for port
81, open for port 82. -/
def someResults : List ScanResult :=
  [⟨"h:80".toList, 80, true, []⟩, ⟨"h:81".toList, 81, false, []⟩, ⟨"h:82".toList, 82, true, []⟩]

/-- A state in which `main` starts to collect from a closed stream that holds
`someResults`. -/
def collecting : State :=
  { initState with pc := .collect, results := someResults, resultsClosed := true }

/-- The state in which `main` has collected `someResults`. -/
def collectedAll : State :=
  { initState with
    pc := .finished
    resultsClosed := true
    collected := someResults
    openPorts := [⟨"h:80".toList, 80, true, []⟩, ⟨"h:82".toList, 82, true, []⟩] }

/-! ## Facts about `strconv` -/

theorem digitsValue_ge (cs : GoString) : ∀ (n v : Nat), digitsValue cs n = some v → n ≤ v := by
  induction cs with
  | nil => intro n v h; simp [digitsValue] at h; omega
  | cons c cs ih =>
    intro n v h
    simp only [digitsValue] at h
    split at h
    · have := ih _ _ h; omega
    · simp at h

theorem parseUintLoop_ok_iff (cs : GoString) :
    ∀ (n v : Nat), n ≤ maxUint64 →
      (parseUintLoop cs n = (v, none) ↔ digitsValue cs n = some v ∧ v ≤ maxUint64) := by
  induction cs with
  | nil =>
    intro n v hn
    simp only [parseUintLoop, digitsValue, Prod.mk.injEq, and_true, Option.some.injEq]
    constructor
    · intro h; subst h; exact ⟨rfl, hn⟩
    · intro h; exact h.1
  | cons c cs ih =>
    intro n v hn
    simp only [parseUintLoop, digitsValue, maxUint64] at *
    by_cases hd : 48 ≤ c.toNat ∧ c.toNat ≤ 57
    · simp only [hd, and_self, if_true]
      by_cases hc : n ≥ 18446744073709551615 / 10 + 1
      · simp only [hc, if_true]
        constructor
        · intro h; simp at h
        · rintro ⟨h1, h2⟩
          have := digitsValue_ge _ _ _ h1
          omega
      · simp only [hc, if_false]
        by_cases hw : n * 10 + (c.toNat - 48) ≤ 18446744073709551615
        · have e1 : (n * 10 + (c.toNat - 48)) % (18446744073709551615 + 1)
              = n * 10 + (c.toNat - 48) := Nat.mod_eq_of_lt (by omega)
          rw [e1]
          have e2 : ¬ (n * 10 + (c.toNat - 48) < n * 10 ∨
              n * 10 + (c.toNat - 48) > 18446744073709551615) := by omega
          simp only [e2, if_false]
          exact ih _ _ hw
        · have e2 : ((n * 10 + (c.toNat - 48)) % (18446744073709551615 + 1) < n * 10 ∨
              (n * 10 + (c.toNat - 48)) % (18446744073709551615 + 1) > 18446744073709551615) := by
            omega
          simp only [e2, if_true]
          constructor
          · intro h; simp at h
          · rintro ⟨h1, h2⟩
            have := digitsValue_ge _ _ _ h1
            omega
    · simp only [hd, if_false]
      constructor
      · intro h; simp at h
      · rintro ⟨h1, _⟩; simp at h1

theorem parseUintLoop_range (cs : GoString) :
    ∀ (n v : Nat), parseUintLoop cs n = (v, some .errRange) → v = maxUint64 := by
  induction cs with
  | nil => intro n v h; simp [parseUintLoop] at h
  | cons c cs ih =>
    intro n v h
    simp only [parseUintLoop] at h
    split at h
    · split at h
      · simp at h; exact h.symm
      · split at h
        · simp at h; exact h.symm
        · exact ih _ _ h
    · simp at h

theorem ParseInt_of_decimalValue (t : GoString) (v : Int)
    (h : decimalValue t = some v) (hv : isGoInt v) : ParseInt t = (v, none) := by
  cases t with
  | nil => simp [decimalValue] at h
  | cons c cs =>
    simp only [decimalValue, ParseInt] at h ⊢
    generalize (if c = '+' ∨ c = '-' then cs else c :: cs) = body at h ⊢
    by_cases hb : body = []
    · simp [hb] at h
    · simp only [hb, if_false] at h
      cases hn : digitsValue body 0 with
      | none => simp [hn] at h
      | some n =>
        simp only [hn, Option.some.injEq] at h
        have hloop := (parseUintLoop_ok_iff _ 0 n (by simp [maxUint64])).2
          ⟨hn, by
            simp only [isGoInt, minInt, maxInt] at hv
            simp only [maxUint64]
            split at h <;> omega⟩
        simp only [ParseUint, hb, if_false, hloop]
        simp only [isGoInt, minInt, maxInt] at hv
        by_cases hc : c = '-'
        · simp only [hc, if_true, decide_True] at h ⊢
          have : ¬ (n > 9223372036854775808) := by omega
          simp [this, h]
        · simp only [hc, if_false, decide_False] at h ⊢
          have : ¬ (n ≥ 9223372036854775808) := by omega
          simp [this, h]

theorem decimalValue_of_ParseInt (t : GoString) (v : Int) (h : ParseInt t = (v, none)) :
    decimalValue t = some v ∧ isGoInt v := by
  cases t with
  | nil => simp [ParseInt] at h
  | cons c cs =>
    simp only [decimalValue, ParseInt] at h ⊢
    generalize (if c = '+' ∨ c = '-' then cs else c :: cs) = body at h ⊢
    by_cases hb : body = []
    · simp [hb, ParseUint] at h
    · simp only [ParseUint, hb, if_false] at h ⊢
      rcases hpu : parseUintLoop body 0 with ⟨un, e⟩
      rw [hpu] at h
      cases e with
      | some er =>
        cases er with
        | errSyntax => simp at h
        | errRange =>
          have := parseUintLoop_range _ _ _ hpu
          subst this
          by_cases hc : c = '-' <;> simp [hc, maxUint64] at h
      | none =>
        have hdv := (parseUintLoop_ok_iff _ 0 un (by simp [maxUint64])).1 hpu
        simp only [hdv.1]
        simp only [isGoInt, minInt, maxInt]
        by_cases hc : c = '-'
        · simp only [hc, decide_True, if_true] at h ⊢
          split at h
          · simp at h
          · split at h
            · simp at h
            · rename_i h1 h2
              simp only [Prod.mk.injEq, and_true] at h
              subst h
              refine ⟨rfl, ?_⟩
              simp at h2
              omega
        · simp only [hc, decide_False, if_false] at h ⊢
          split at h
          · simp at h
          · split at h
            · simp at h
            · rename_i h1 h2
              simp only [Prod.mk.injEq, and_true] at h
              subst h
              refine ⟨rfl, ?_⟩
              simp at h1
              omega

theorem Atoi_ok_iff (t : GoString) : (Atoi t).2 = none ↔ isIntToken t := by
  constructor
  · intro h
    have : Atoi t = ((Atoi t).1, none) := by rw [← h]
    exact ⟨_, decimalValue_of_ParseInt _ _ this⟩
  · rintro ⟨v, h1, h2⟩
    simp [Atoi, ParseInt_of_decimalValue t v h1 h2]

/-! ## Facts about the enumeration -/

theorem parsePortList_ok (toks : List GoString) :
    ∀ (acc vals : List Int), toks.map decimalValue = vals.map some →
      (∀ v ∈ vals, isGoInt v) → parsePortList toks acc = .ok (acc ++ vals) := by
  induction toks with
  | nil =>
    intro acc vals h _
    cases vals with
    | nil => simp [parsePortList]
    | cons v vs => simp at h
  | cons t ts ih =>
    intro acc vals h hv
    cases vals with
    | nil => simp at h
    | cons v vs =>
      simp only [List.map_cons, List.cons.injEq] at h
      have hA : Atoi t = (v, none) :=
        ParseInt_of_decimalValue t v h.1 (hv v (List.mem_cons_self _ _))
      simp only [parsePortList, hA]
      rw [ih (acc ++ [v]) vs h.2 (fun x hx => hv x (List.mem_cons_of_mem _ hx))]
      simp

theorem parsePortList_exit (toks : List GoString) :
    ∀ (acc : List Int), (∃ t ∈ toks, ¬ isIntToken t) →
      ∃ t ∈ toks, ¬ isIntToken t ∧ parsePortList toks acc = .exitInvalidPort t := by
  induction toks with
  | nil => intro acc h; simp at h
  | cons t ts ih =>
    intro acc h
    by_cases ht : isIntToken t
    · have hrest : ∃ u ∈ ts, ¬ isIntToken u := by
        rcases h with ⟨u, hu, hnu⟩
        rcases List.mem_cons.1 hu with rfl | hu
        · exact absurd ht hnu
        · exact ⟨u, hu, hnu⟩
      rcases ht with ⟨v, hv1, hv2⟩
      have hA : Atoi t = (v, none) := ParseInt_of_decimalValue t v hv1 hv2
      rcases ih (acc ++ [v]) hrest with ⟨u, hu, hnu, hp⟩
      exact ⟨u, List.mem_cons_of_mem _ hu, hnu, by simp only [parsePortList, hA]; exact hp⟩
    · refine ⟨t, List.mem_cons_self _ _, ht, ?_⟩
      have hne : (Atoi t).2 ≠ none := fun h2 => ht ((Atoi_ok_iff t).1 h2)
      rcases hA : Atoi t with ⟨v, e⟩
      rw [hA] at hne
      cases e with
      | none => exact absurd rfl hne
      | some er => simp only [parsePortList, hA]

theorem wrapInt_of_isGoInt (i : Int) (h : isGoInt i) : wrapInt i = i := by
  simp only [isGoInt, minInt, maxInt] at h
  simp only [wrapInt]
  omega

theorem isGoInt_wrapInt (i : Int) : isGoInt (wrapInt i) := by
  simp only [isGoInt, minInt, maxInt, wrapInt]
  omega

theorem interval_cons (a b : Int) (h : a ≤ b) : interval a b = a :: interval (a + 1) b := by
  have e : (b - a + 1).toNat = (b - (a + 1) + 1).toNat + 1 := by omega
  simp only [interval, e, List.range_succ_eq_map, List.map_cons, List.map_map]
  simp only [Nat.cast_zero, add_zero, List.cons.injEq, true_and]
  apply List.map_congr_left
  intro k _
  simp only [Function.comp, Nat.cast_succ]
  omega

theorem interval_nil (a b : Int) (h : b < a) : interval a b = [] := by
  have e : (b - a + 1).toNat = 0 := by omega
  simp only [interval, e, List.range_zero, List.map_nil]

theorem mem_interval (a b x : Int) : x ∈ interval a b ↔ a ≤ x ∧ x ≤ b := by
  simp only [interval, List.mem_map, List.mem_range]
  constructor
  · rintro ⟨k, hk, rfl⟩; omega
  · rintro ⟨h1, h2⟩; exact ⟨(x - a).toNat, by omega, by omega⟩

theorem length_interval (a b : Int) : (interval a b).length = (b - a + 1).toNat := by
  simp only [interval, List.length_map, List.length_range]

theorem pairwise_interval (a b : Int) : (interval a b).Pairwise (· < ·) := by
  simp only [interval, List.pairwise_map]
  exact (List.pairwise_lt_range _).imp (fun h => by omega)

theorem rangeLoop_ok (k : Nat) :
    ∀ (p e : Int) (acc : List Int) (fuel : Nat), isGoInt p → e < maxInt →
      (e - p + 1).toNat = k → k < fuel → rangeLoop fuel p e acc = .ok (acc ++ interval p e) := by
  induction k with
  | zero =>
    intro p e acc fuel _ _ hk hf
    cases fuel with
    | zero => omega
    | succ fuel =>
      have hpe : ¬ p ≤ e := by omega
      simp [rangeLoop, hpe, interval_nil p e (by omega)]
  | succ k ih =>
    intro p e acc fuel hp he hk hf
    cases fuel with
    | zero => omega
    | succ fuel =>
      have hpe : p ≤ e := by omega
      have hp1 : isGoInt (p + 1) := by
        simp only [isGoInt, minInt, maxInt] at hp he ⊢; omega
      simp only [rangeLoop, hpe, if_true, wrapInt_of_isGoInt _ hp1]
      rw [ih (p + 1) e (acc ++ [p]) fuel hp1 he (by omega) (by omega), interval_cons p e hpe]
      simp

theorem rangeLoop_maxInt (fuel : Nat) :
    ∀ (p : Int) (acc : List Int), isGoInt p → rangeLoop fuel p maxInt acc = .running := by
  induction fuel with
  | zero => intro p acc _; rfl
  | succ fuel ih =>
    intro p acc hp
    simp only [rangeLoop, hp.2, if_true]
    exact ih _ _ (isGoInt_wrapInt _)

theorem parsePortList_total (toks : List GoString) :
    ∀ (acc : List Int), (∀ t ∈ toks, isIntToken t) →
      ∃ vals, vals.length = toks.length ∧ parsePortList toks acc = .ok (acc ++ vals) := by
  induction toks with
  | nil => intro acc _; exact ⟨[], rfl, by simp [parsePortList]⟩
  | cons t ts ih =>
    intro acc h
    rcases h t (List.mem_cons_self _ _) with ⟨v, hv1, hv2⟩
    have hA : Atoi t = (v, none) := ParseInt_of_decimalValue t v hv1 hv2
    rcases ih (acc ++ [v]) (fun u hu => h u (List.mem_cons_of_mem _ hu)) with ⟨vs, hl, hp⟩
    refine ⟨v :: vs, by simp [hl], ?_⟩
    simp only [parsePortList, hA, hp]
    simp

theorem parsePortList_isGoInt (toks : List GoString) :
    ∀ (acc ps : List Int), parsePortList toks acc = .ok ps → (∀ p ∈ acc, isGoInt p) →
      ∀ p ∈ ps, isGoInt p := by
  induction toks with
  | nil =>
    intro acc ps h hacc
    simp only [parsePortList, PortsResult.ok.injEq] at h
    subst h; exact hacc
  | cons t ts ih =>
    intro acc ps h hacc
    rcases hA : Atoi t with ⟨v, e⟩
    cases e with
    | some er => simp [parsePortList, hA] at h
    | none =>
      simp only [parsePortList, hA] at h
      have hv : isGoInt v := (decimalValue_of_ParseInt t v hA).2
      refine ih (acc ++ [v]) ps h ?_
      intro p hp
      rcases List.mem_append.1 hp with hp | hp
      · exact hacc p hp
      · simp only [List.mem_singleton] at hp
        subst hp; exact hv

theorem rangeLoop_isGoInt (fuel : Nat) :
    ∀ (p e : Int) (acc ps : List Int), rangeLoop fuel p e acc = .ok ps → isGoInt p →
      (∀ q ∈ acc, isGoInt q) → ∀ q ∈ ps, isGoInt q := by
  induction fuel with
  | zero => intro p e acc ps h; simp [rangeLoop] at h
  | succ fuel ih =>
    intro p e acc ps h hp hacc
    simp only [rangeLoop] at h
    split at h
    · refine ih _ e (acc ++ [p]) ps h (isGoInt_wrapInt _) ?_
      intro q hq
      rcases List.mem_append.1 hq with hq | hq
      · exact hacc q hq
      · simp only [List.mem_singleton] at hq
        subst hq; exact hp
    · simp only [PortsResult.ok.injEq] at h
      subst h; exact hacc

/-- Every enumerated port is a Go `int`, as its type says. -/
theorem enumeratePorts_isGoInt (fuel : Nat) (f : Flags) (ps : List Int)
    (hs : isGoInt f.startPort) (h : enumeratePorts fuel f = .ok ps) : ∀ p ∈ ps, isGoInt p := by
  simp only [enumeratePorts] at h
  split at h
  · exact parsePortList_isGoInt _ [] ps h (by simp)
  · exact rangeLoop_isGoInt fuel _ _ [] ps h hs (by simp)

/-! ## Facts about `Itoa` and the address helpers -/

theorem toNat_digitByte (d : Nat) (h : d < 10) : (digitByte d).toNat = 48 + d := by
  interval_cases d <;> rfl

theorem digitsValue_append (ds : GoString) :
    ∀ (rest : GoString) (m : Nat), (∀ c ∈ ds, 48 ≤ c.toNat ∧ c.toNat ≤ 57) →
      ∃ k, k < 10 ^ ds.length ∧ digitsValue ds 0 = some k ∧
        digitsValue (ds ++ rest) m = digitsValue rest (m * 10 ^ ds.length + k) := by
  induction ds using List.reverseRecOn with
  | nil => intro rest m _; exact ⟨0, by simp, rfl, by simp⟩
  | append_singleton ds c ih =>
    intro rest m h
    have hc : 48 ≤ c.toNat ∧ c.toNat ≤ 57 := h c (by simp)
    have hds : ∀ x ∈ ds, 48 ≤ x.toNat ∧ x.toNat ≤ 57 := fun x hx => h x (by simp [hx])
    rcases ih (c :: rest) m hds with ⟨k, hk, hk0, hk1⟩
    rcases ih [c] 0 hds with ⟨k2, _, hk20, hk21⟩
    have hkk : k2 = k := by rw [hk0] at hk20; exact (Option.some.inj hk20).symm
    subst hkk
    refine ⟨k2 * 10 + (c.toNat - 48), ?_, ?_, ?_⟩
    · simp only [List.length_append, List.length_singleton, pow_succ]; omega
    · rw [hk21]; simp [digitsValue, hc]
    · rw [List.append_assoc, List.singleton_append, hk1]
      simp only [digitsValue, hc, and_self, if_true, List.length_append, List.length_singleton,
        pow_succ]
      congr 1; ring

theorem formatBits_spec (fuel : Nat) :
    ∀ (n : Nat) (acc : GoString), n < fuel →
      ∃ ds, formatBits fuel n acc = ds ++ acc ∧ ds ≠ [] ∧
        (∀ c ∈ ds, 48 ≤ c.toNat ∧ c.toNat ≤ 57) ∧ digitsValue ds 0 = some n := by
  induction fuel with
  | zero => intro n acc h; omega
  | succ fuel ih =>
    intro n acc h
    have hd : (digitByte (n % 10)).toNat = 48 + n % 10 :=
      toNat_digitByte _ (Nat.mod_lt _ (by decide))
    by_cases h0 : n / 10 = 0
    · refine ⟨[digitByte (n % 10)], by simp [formatBits, h0], by simp, ?_, ?_⟩
      · intro c hc
        simp only [List.mem_singleton] at hc
        subst hc; rw [hd]; omega
      · simp only [digitsValue, hd]
        have : 48 ≤ 48 + n % 10 ∧ 48 + n % 10 ≤ 57 := by omega
        simp only [this, and_self, if_true, Option.some.injEq]
        omega
    · rcases ih (n / 10) (digitByte (n % 10) :: acc) (by omega) with ⟨ds, h1, h2, h3, h4⟩
      refine ⟨ds ++ [digitByte (n % 10)], by simp [formatBits, h0, h1], by simp, ?_, ?_⟩
      · intro c hc
        rcases List.mem_append.1 hc with hc | hc
        · exact h3 c hc
        · simp only [List.mem_singleton] at hc
          subst hc; rw [hd]; omega
      · rcases digitsValue_append ds [digitByte (n % 10)] 0 h3 with ⟨k, _, hk0, hk1⟩
        rw [h4] at hk0
        have hk : k = n / 10 := (Option.some.inj hk0).symm
        subst hk
        rw [hk1]
        simp only [digitsValue, hd]
        have : 48 ≤ 48 + n % 10 ∧ 48 + n % 10 ≤ 57 := by omega
        simp only [this, and_self, if_true, Option.some.injEq]
        omega

/-- What `Itoa` writes: an optional `-`, then digits that denote the number. -/
theorem Itoa_spec (i : Int) :
    ∃ ds, ds ≠ [] ∧ (∀ c ∈ ds, 48 ≤ c.toNat ∧ c.toNat ≤ 57) ∧
      digitsValue ds 0 = some i.natAbs ∧ Itoa i = if i < 0 then '-' :: ds else ds := by
  rcases formatBits_spec (i.natAbs + 1) i.natAbs [] (by omega) with ⟨ds, h1, h2, h3, h4⟩
  refine ⟨ds, h2, h3, h4, ?_⟩
  simp only [Itoa, h1, List.append_nil]

theorem decimalValue_Itoa (i : Int) : decimalValue (Itoa i) = some i := by
  rcases Itoa_spec i with ⟨ds, h1, h2, h3, h4⟩
  rw [h4]
  by_cases hi : i < 0
  · simp only [hi, if_true, decimalValue, or_true, h1, if_false, h3, Option.some.injEq]
    omega
  · simp only [hi, if_false]
    cases ds with
    | nil => exact absurd rfl h1
    | cons c cs =>
      have hc := h2 c (List.mem_cons_self _ _)
      have hp : c ≠ '+' := by
        intro e; subst e; revert hc; decide
      have hm : c ≠ '-' := by
        intro e; subst e; revert hc; decide
      simp only [decimalValue, hp, hm, or_self, if_false, h3, Option.some.injEq]
      rw [if_neg (List.cons_ne_nil _ _)]
      simp only [Option.some.injEq]
      omega

theorem Atoi_Itoa (i : Int) (h : isGoInt i) : Atoi (Itoa i) = (i, none) :=
  ParseInt_of_decimalValue _ _ (decimalValue_Itoa i) h

theorem Itoa_no_special (i : Int) :
    ':' ∉ Itoa i ∧ '[' ∉ Itoa i ∧ ']' ∉ Itoa i := by
  rcases Itoa_spec i with ⟨ds, _, h2, _, h4⟩
  have key : ∀ c : Char, ¬ (48 ≤ c.toNat ∧ c.toNat ≤ 57) → c ≠ '-' → c ∉ Itoa i := by
    intro c hc hm hmem
    rw [h4] at hmem
    by_cases hi : i < 0
    · simp only [hi, if_true, List.mem_cons] at hmem
      rcases hmem with e | hmem
      · exact hm e
      · exact hc (h2 c hmem)
    · simp only [hi, if_false] at hmem
      exact hc (h2 c hmem)
  exact ⟨key ':' (by decide) (by decide), key '[' (by decide) (by decide),
    key ']' (by decide) (by decide)⟩

theorem indexByte_eq_none (s : GoString) (c : Char) : indexByte s c = none ↔ c ∉ s := by
  induction s with
  | nil => simp [indexByte]
  | cons x xs ih =>
    by_cases h : x = c
    · simp [indexByte, h]
    · have h2 : ¬ c = x := fun e => h e.symm
      simp [indexByte, h, h2, ih]

theorem indexByte_isSome (s : GoString) (c : Char) : (indexByte s c).isSome = true ↔ c ∈ s := by
  rw [← not_iff_not, ← indexByte_eq_none]
  cases indexByte s c <;> simp

theorem indexByte_append (a b : GoString) (c : Char) (h : c ∉ a) :
    indexByte (a ++ c :: b) c = some a.length := by
  induction a with
  | nil => simp [indexByte]
  | cons x xs ih =>
    have hx : ¬ x = c := fun e => h (by simp [e])
    have hxs : c ∉ xs := fun e => h (by simp [e])
    simp [indexByte, hx, ih hxs]

theorem lastIndexByte_eq_none (s : GoString) (c : Char) (h : c ∉ s) :
    lastIndexByte s c = none := by
  induction s with
  | nil => simp [lastIndexByte]
  | cons x xs ih =>
    have hx : ¬ x = c := fun e => h (by simp [e])
    have hxs : c ∉ xs := fun e => h (by simp [e])
    simp [lastIndexByte, hx, ih hxs]

theorem lastIndexByte_append (a b : GoString) (c : Char) (h : c ∉ b) :
    lastIndexByte (a ++ c :: b) c = some a.length := by
  induction a with
  | nil => simp [lastIndexByte, lastIndexByte_eq_none b c h]
  | cons x xs ih => simp [lastIndexByte, ih]

theorem SplitHostPort_JoinHostPort (host port : GoString)
    (ho : '[' ∉ host) (hc : ']' ∉ host)
    (hp : ':' ∉ port ∧ '[' ∉ port ∧ ']' ∉ port) :
    SplitHostPort (JoinHostPort host port) = (host, port, none) := by
  by_cases hcol : ':' ∈ host
  · have hj : JoinHostPort host port = '[' :: (host ++ ']' :: ':' :: port) := by
      simp [JoinHostPort, (indexByte_isSome host ':').2 hcol]
    have hlast : lastIndexByte ('[' :: (host ++ ']' :: ':' :: port)) ':'
        = some (host.length + 2) := by
      have := lastIndexByte_append ('[' :: (host ++ [']'])) port ':' hp.1
      simpa using this
    have hidx : indexByte ('[' :: (host ++ ']' :: ':' :: port)) ']'
        = some (host.length + 1) := by
      have := indexByte_append ('[' :: host) (':' :: port) ']' (by simp [hc])
      simpa using this
    have h1 : (indexByte (host ++ ']' :: ':' :: port) '[').isSome = false := by
      rw [Bool.eq_false_iff, Ne, indexByte_isSome]
      simp [ho, hp.2.1]
    have h2 : (indexByte (List.drop (host.length + 1) (host ++ ']' :: ':' :: port)) ']').isSome
        = false := by
      rw [Bool.eq_false_iff, Ne, indexByte_isSome]
      simp [hp.2.2]
    rw [hj]
    simp only [SplitHostPort, hlast, hidx, List.head?_cons, if_true, List.length_cons,
      List.length_append, splitTail, List.drop_succ_cons, List.drop_zero, h1, h2]
    simp
  · have hj : JoinHostPort host port = host ++ ':' :: port := by
      have : (indexByte host ':').isSome = false := by
        rw [Bool.eq_false_iff, Ne, indexByte_isSome]; exact hcol
      simp [JoinHostPort, this]
    have hlast : lastIndexByte (host ++ ':' :: port) ':' = some host.length :=
      lastIndexByte_append host port ':' hp.1
    have hhead : (host ++ ':' :: port).head? ≠ some '[' := by
      cases host with
      | nil => simp
      | cons x xs =>
        simp only [List.cons_append, List.head?_cons, ne_eq, Option.some.injEq]
        intro e; exact ho (by simp [e])
    have h0 : (indexByte host ':').isSome = false := by
      rw [Bool.eq_false_iff, Ne, indexByte_isSome]; exact hcol
    have h1 : (indexByte (host ++ ':' :: port) '[').isSome = false := by
      rw [Bool.eq_false_iff, Ne, indexByte_isSome]
      simp [ho, hp.2.1]
    have h2 : (indexByte (host ++ ':' :: port) ']').isSome = false := by
      rw [Bool.eq_false_iff, Ne, indexByte_isSome]
      simp [hc, hp.2.2]
    rw [hj]
    simp only [SplitHostPort, hlast, hhead, if_false, List.take_left', splitTail, List.drop_zero,
      h0, h1, h2]
    simp

theorem extractPort_JoinHostPort (host : GoString) (p : Int)
    (ho : '[' ∉ host) (hc : ']' ∉ host) (hp : isGoInt p) :
    extractPortFromAddr (JoinHostPort host (Itoa p)) = p := by
  simp only [extractPortFromAddr, SplitHostPort_JoinHostPort host (Itoa p) ho hc
    (Itoa_no_special p), Atoi_Itoa p hp]

theorem splitTail_port (hostport host : GoString) (i j k : Nat)
    (h : (splitTail hostport host i j k).2.2 = none) :
    (splitTail hostport host i j k).2.1 = hostport.drop (i + 1) := by
  unfold splitTail at h ⊢
  split
  · rename_i h1; simp [h1] at h
  · split
    · rename_i h1 h2; simp [h1, h2] at h
    · rfl

/-- When `SplitHostPort` accepts an address, the port it returns is what
follows the last colon. -/
theorem SplitHostPort_drop (hostport : GoString) (i : Nat)
    (hlast : lastIndexByte hostport ':' = some i)
    (h : (SplitHostPort hostport).2.2 = none) :
    (SplitHostPort hostport).2.1 = hostport.drop (i + 1) := by
  unfold SplitHostPort at h ⊢
  rw [hlast] at h ⊢
  simp only at h ⊢
  by_cases hhead : hostport.head? = some '['
  · rw [if_pos hhead] at h ⊢
    cases hidx : indexByte hostport ']' with
    | none => rw [hidx] at h; simp at h
    | some e =>
      rw [hidx] at h
      simp only at h ⊢
      by_cases h1 : e + 1 = hostport.length
      · rw [if_pos h1] at h; simp at h
      · rw [if_neg h1] at h ⊢
        by_cases h2 : e + 1 = i
        · rw [if_pos h2] at h ⊢
          exact splitTail_port _ _ _ _ _ h
        · rw [if_neg h2] at h
          split at h <;> simp at h
  · rw [if_neg hhead] at h ⊢
    by_cases h1 : (indexByte (hostport.take i) ':').isSome = true
    · rw [if_pos h1] at h; simp at h
    · rw [if_neg h1] at h ⊢
      exact splitTail_port _ _ _ _ _ h

theorem SplitHostPort_port (front port : GoString) (hp : ':' ∉ port)
    (h : (SplitHostPort (front ++ ':' :: port)).2.2 = none) :
    (SplitHostPort (front ++ ':' :: port)).2.1 = port := by
  have hdrop : (front ++ ':' :: port).drop (front.length + 1) = port := by
    rw [show front ++ ':' :: port = (front ++ [':']) ++ port by simp]
    exact List.drop_left' (by simp)
  rw [SplitHostPort_drop _ _ (lastIndexByte_append front port ':' hp) h, hdrop]

theorem JoinHostPort_shape (host port : GoString) :
    ∃ front, JoinHostPort host port = front ++ ':' :: port := by
  by_cases h : (indexByte host ':').isSome = true
  · exact ⟨'[' :: (host ++ [']']), by simp [JoinHostPort, h]⟩
  · exact ⟨host, by simp [JoinHostPort, h]⟩

/-- For every host: when the address that `main` builds is one that
`SplitHostPort` accepts, `extractPortFromAddr` returns the port it was built
from. -/
theorem extractPort_of_split (host : GoString) (p : Int) (hp : isGoInt p)
    (h : (SplitHostPort (JoinHostPort host (Itoa p))).2.2 = none) :
    extractPortFromAddr (JoinHostPort host (Itoa p)) = p := by
  obtain ⟨front, hfront⟩ := JoinHostPort_shape host (Itoa p)
  rw [hfront] at h
  simp only [extractPortFromAddr, hfront,
    SplitHostPort_port front (Itoa p) (Itoa_no_special p).1 h, Atoi_Itoa p hp]

/-! ## The step function takes the listed transitions -/

theorem Dial_splits (addr : GoString) (d : DialOutcome)
    (h : (Dial addr d).isConnected = true) : (SplitHostPort addr).2.2 = none := by
  by_cases hs : (SplitHostPort addr).2.2 = none
  · exact hs
  · simp [Dial, hs, DialOutcome.isConnected] at h

theorem Step_of_step (f : Flags) (scanPorts : List Int) (s s1 : State) (e : Event)
    (h : step f scanPorts s e = some s1) : Step f scanPorts s s1 := by
  unfold step at h
  by_cases hp : s.panicked = true
  · simp [hp] at h
  · have hp0 : s.panicked = false := by simpa using hp
    simp only [hp0, Bool.false_eq_true, if_false] at h
    cases e with
    | main =>
      simp only [stepMain] at h
      split at h
      · rename_i i hpc
        split at h
        · rename_i hi
          simp only [Option.some.injEq] at h
          subst h
          exact Step.spawn s i hp0 hpc hi
        · rename_i hi
          simp only [Option.some.injEq] at h
          subst h
          exact Step.spawnEnd s i hp0 hpc hi
      · rename_i port rest hpc
        split at h
        · rename_i hl
          simp only [Option.some.injEq] at h
          subst h
          exact Step.feed s port rest hp0 hpc hl
        · simp at h
      · rename_i hpc
        simp only [Option.some.injEq] at h
        subst h
        exact Step.closeTasks s hp0 hpc
      · rename_i hpc
        simp only [Option.some.injEq] at h
        subst h
        exact Step.startCloser s hp0 hpc
      · rename_i hpc
        split at h
        · rename_i result rest hr
          simp only [Option.some.injEq] at h
          subst h
          exact Step.collectOne s result rest hp0 hpc hr
        · rename_i hr
          split at h
          · rename_i hc
            simp only [Option.some.injEq] at h
            subst h
            exact Step.finish s hp0 hpc hr hc
          · simp at h
      · simp at h
    | worker i d =>
      simp only [stepWorker] at h
      split at h
      · simp at h
      · rename_i w hw
        split at h
        · rename_i hpc
          split at h
          · rename_i addr rest ht
            simp only [Option.some.injEq] at h
            subst h
            exact Step.recvTask s i w addr rest hp0 hw hpc ht
          · rename_i ht
            split at h
            · rename_i hc
              split at h
              · rename_i hwg
                simp only [Option.some.injEq] at h
                subst h
                exact Step.donePanic s i w hp0 hw hpc ht hc hwg
              · rename_i hwg
                simp only [Option.some.injEq] at h
                subst h
                exact Step.workerReturn s i w hp0 hw hpc ht hc hwg
            · simp at h
        · rename_i addr hpc
          split at h
          · rename_i hb
            simp only [Option.some.injEq] at h
            subst h
            exact Step.dialFail s i w addr (Dial addr d) hp0 hw hpc (Dial_splits addr d) hb
          · rename_i result hb
            simp only [Option.some.injEq] at h
            subst h
            exact Step.dialOk s i w addr (Dial addr d) result hp0 hw hpc (Dial_splits addr d) hb
        · rename_i result hpc
          split at h
          · rename_i hc
            simp only [Option.some.injEq] at h
            subst h
            exact Step.sendPanic s i w result hp0 hw hpc hc
          · rename_i hc
            split at h
            · rename_i hl
              simp only [Option.some.injEq] at h
              subst h
              exact Step.send s i w result hp0 hw hpc (by simpa using hc) hl
            · simp at h
        · simp at h
    | closer =>
      simp only [stepCloser] at h
      split at h
      · rename_i hc
        split at h
        · rename_i hwg
          split at h
          · rename_i hr
            simp only [Option.some.injEq] at h
            subst h
            exact Step.closerPanic s hp0 hc hwg hr
          · rename_i hr
            simp only [Option.some.injEq] at h
            subst h
            exact Step.closeResults s hp0 hc hwg (by simpa using hr)
        · simp at h
      · simp at h

/-! ## Facts about the body of `worker` -/

theorem workerBody_failed (addr : GoString) (b : Bool) : workerBody addr .failed b = none := rfl

set_option maxRecDepth 100000 in
theorem workerBody_connected (addr : GoString) (r : ReadOutcome) (b : Bool) :
    workerBody addr (.connected r) b =
      some { Target := addr, Port := extractPortFromAddr addr, IsOpen := true,
             Banner := if b = true ∧ (r.err = none ∨ r.err = some ['E', 'O', 'F'])
                       then r.data.take 1024 else [] } := by
  cases b with
  | false => simp only [workerBody, Bool.false_eq_true, if_false, false_and]
  | true =>
    simp only [workerBody, connRead, if_true, List.length_replicate, true_and]
    by_cases he : r.err = none ∨ r.err = some ['E', 'O', 'F']
    · simp only [he, if_true, List.take_left']
    · simp only [he, if_false]

theorem workerBody_eq_none (addr : GoString) (d : DialOutcome) (b : Bool) :
    workerBody addr d b = none ↔ d = .failed := by
  cases d with
  | failed => simp [workerBody_failed]
  | connected r => simp [workerBody_connected]

theorem workerBody_isOpen (addr : GoString) (d : DialOutcome) (b : Bool) (res : ScanResult)
    (h : workerBody addr d b = some res) :
    res.IsOpen = true ∧ res.Target = addr ∧ res.Port = extractPortFromAddr addr := by
  cases d with
  | failed => simp [workerBody_failed] at h
  | connected r =>
    rw [workerBody_connected] at h
    simp only [Option.some.injEq] at h
    subst h
    exact ⟨rfl, rfl, rfl⟩

/-! ## The data-flow invariant -/

theorem gather_append {α : Type} (g : Worker → List α) (ws : List Worker) (w : Worker) :
    gather g (ws ++ [w]) = gather g ws ++ g w := by
  induction ws with
  | nil => simp [gather]
  | cons x xs ih => simp [gather, ih]

theorem count_gather_set {α : Type} [DecidableEq α] (g : Worker → List α) (a : α) (w1 : Worker) :
    ∀ (ws : List Worker) (i : Nat) (w : Worker), ws.get? i = some w →
      List.count a (gather g (ws.set i w1)) + List.count a (g w)
        = List.count a (gather g ws) + List.count a (g w1) := by
  intro ws
  induction ws with
  | nil => intro i w h; simp at h
  | cons x xs ih =>
    intro i w h
    cases i with
    | zero =>
      simp only [List.get?_cons_zero, Option.some.injEq] at h
      subst h
      simp only [List.set_cons_zero, gather, List.count_append]
      omega
    | succ i =>
      simp only [List.get?_cons_succ] at h
      have := ih i w h
      simp only [List.set_cons_succ, gather, List.count_append]
      omega

theorem Flow_init (f : Flags) (scanPorts : List Int) : Flow f scanPorts initState := by
  refine ⟨?_, ?_, ?_, ?_⟩ <;> simp [initState, gather, unfed]

theorem Flow_step (f : Flags) (scanPorts : List Int) (s s1 : State)
    (h : Step f scanPorts s s1) (hf : Flow f scanPorts s) : Flow f scanPorts s1 := by
  have h1 := hf.tasksPerm
  have h2 := hf.resultsPerm
  have h3 := hf.openPorts_eq
  have h4 := hf.conns
  rw [List.perm_iff_count] at h1 h2
  cases h with
  | spawn i hp hpc hi =>
    refine ⟨?_, ?_, h3, ?_⟩
    · rw [List.perm_iff_count]; intro a
      have := h1 a
      simp only [unfed, hpc, gather_append, List.count_append] at this ⊢
      simp only [dialedAddrs, inflight, List.map_nil, List.count_nil]
      omega
    · rw [List.perm_iff_count]; intro a
      have := h2 a
      simp only [gather_append, List.count_append] at this ⊢
      simp only [pendingSend, produced, List.filterMap_nil, List.count_nil]
      omega
    · intro w hw
      rcases List.mem_append.1 hw with hw | hw
      · exact h4 w hw
      · simp only [List.mem_singleton] at hw
        subst hw
        simp [connectedAddrs]
  | spawnEnd i hp hpc hi =>
    refine ⟨?_, List.perm_iff_count.2 h2, h3, h4⟩
    rw [List.perm_iff_count]; intro a
    have := h1 a
    simp only [unfed, hpc] at this ⊢
    exact this
  | feed port rest hp hpc hl =>
    refine ⟨?_, List.perm_iff_count.2 h2, h3, h4⟩
    rw [List.perm_iff_count]; intro a
    have := h1 a
    simp only [unfed, hpc, enumeratedAddrs, List.map_cons, List.count_append, List.count_cons,
      List.count_nil] at this ⊢
    omega
  | closeTasks hp hpc =>
    refine ⟨?_, List.perm_iff_count.2 h2, h3, h4⟩
    rw [List.perm_iff_count]; intro a
    have := h1 a
    simp only [unfed, hpc, enumeratedAddrs, List.map_nil] at this ⊢
    exact this
  | startCloser hp hpc =>
    refine ⟨?_, List.perm_iff_count.2 h2, h3, h4⟩
    rw [List.perm_iff_count]; intro a
    have := h1 a
    simp only [unfed, hpc] at this ⊢
    exact this
  | collectOne result rest hp hpc hr =>
    refine ⟨?_, ?_, ?_, h4⟩
    · rw [List.perm_iff_count]; intro a
      have := h1 a
      simp only [unfed, hpc] at this ⊢
      exact this
    · rw [List.perm_iff_count]; intro a
      have := h2 a
      simp only [hr, List.count_append, List.count_cons, List.count_nil] at this ⊢
      omega
    · simp only [List.filter_append, h3]
      cases hopen : result.IsOpen <;> simp [hopen]
  | finish hp hpc hr hc =>
    refine ⟨?_, List.perm_iff_count.2 h2, h3, h4⟩
    rw [List.perm_iff_count]; intro a
    have := h1 a
    simp only [unfed, hpc] at this ⊢
    exact this
  | recvTask i w addr rest hp hw hpc ht =>
    refine ⟨?_, ?_, h3, ?_⟩
    · rw [List.perm_iff_count]; intro a
      have := h1 a
      have e1 := count_gather_set dialedAddrs a { w with pc := .dial addr } _ _ _ hw
      have e2 := count_gather_set inflight a { w with pc := .dial addr } _ _ _ hw
      simp only [unfed, ht, List.count_append, List.count_cons, List.count_nil] at this ⊢
      simp only [dialedAddrs, inflight, hpc, List.count_cons, List.count_nil] at e1 e2
      omega
    · rw [List.perm_iff_count]; intro a
      have := h2 a
      have e1 := count_gather_set pendingSend a { w with pc := .dial addr } _ _ _ hw
      have e2 := count_gather_set (produced f.bannerGrab) a { w with pc := .dial addr } _ _ _ hw
      simp only [List.count_append] at this ⊢
      simp only [pendingSend, produced, hpc, List.count_nil] at e1 e2
      omega
    · intro w1 hw1
      rcases List.mem_or_eq_of_mem_set hw1 with hw1 | hw1
      · exact h4 w1 hw1
      · subst hw1
        have := h4 w (List.get?_mem hw)
        simpa [hpc, connectedAddrs] using this
  | donePanic i w hp hw hpc ht hc hwg =>
    exact ⟨List.perm_iff_count.2 h1, List.perm_iff_count.2 h2, h3, h4⟩
  | workerReturn i w hp hw hpc ht hc hwg =>
    refine ⟨?_, ?_, h3, ?_⟩
    · rw [List.perm_iff_count]; intro a
      have := h1 a
      have e1 := count_gather_set dialedAddrs a { w with pc := .done, conns := [] } _ _ _ hw
      have e2 := count_gather_set inflight a { w with pc := .done, conns := [] } _ _ _ hw
      simp only [unfed, List.count_append] at this ⊢
      simp only [dialedAddrs, inflight, hpc, List.count_nil] at e1 e2
      omega
    · rw [List.perm_iff_count]; intro a
      have := h2 a
      have e1 := count_gather_set pendingSend a { w with pc := .done, conns := [] } _ _ _ hw
      have e2 := count_gather_set (produced f.bannerGrab) a
        { w with pc := .done, conns := [] } _ _ _ hw
      simp only [List.count_append] at this ⊢
      simp only [pendingSend, produced, hpc, List.count_nil] at e1 e2
      omega
    · intro w1 hw1
      rcases List.mem_or_eq_of_mem_set hw1 with hw1 | hw1
      · exact h4 w1 hw1
      · subst hw1
        simp
  | dialFail i w addr d hp hw hpc hdl hb =>
    refine ⟨?_, ?_, h3, ?_⟩
    · rw [List.perm_iff_count]; intro a
      have := h1 a
      have e1 := count_gather_set dialedAddrs a
        { w with pc := .recv, dialed := w.dialed ++ [(addr, d)] } _ _ _ hw
      have e2 := count_gather_set inflight a
        { w with pc := .recv, dialed := w.dialed ++ [(addr, d)] } _ _ _ hw
      simp only [unfed, List.count_append] at this ⊢
      simp only [dialedAddrs, inflight, hpc, List.map_append, List.map_cons, List.map_nil,
        List.count_append, List.count_cons, List.count_nil] at e1 e2
      omega
    · rw [List.perm_iff_count]; intro a
      have := h2 a
      have e1 := count_gather_set pendingSend a
        { w with pc := .recv, dialed := w.dialed ++ [(addr, d)] } _ _ _ hw
      have e2 := count_gather_set (produced f.bannerGrab) a
        { w with pc := .recv, dialed := w.dialed ++ [(addr, d)] } _ _ _ hw
      simp only [List.count_append] at this ⊢
      simp only [pendingSend, produced, hpc, List.filterMap_append, List.filterMap_cons, hb,
        List.filterMap_nil, List.append_nil, List.count_nil] at e1 e2
      omega
    · intro w1 hw1
      rcases List.mem_or_eq_of_mem_set hw1 with hw1 | hw1
      · exact h4 w1 hw1
      · subst hw1
        have := h4 w (List.get?_mem hw)
        have hd : d = .failed := (workerBody_eq_none _ _ _).1 hb
        subst hd
        simpa [hpc, connectedAddrs] using this
  | dialOk i w addr d result hp hw hpc hdl hb =>
    refine ⟨?_, ?_, h3, ?_⟩
    · rw [List.perm_iff_count]; intro a
      have := h1 a
      have e1 := count_gather_set dialedAddrs a
        ⟨.send result, addr :: w.conns, w.dialed ++ [(addr, d)]⟩ _ _ _ hw
      have e2 := count_gather_set inflight a
        ⟨.send result, addr :: w.conns, w.dialed ++ [(addr, d)]⟩ _ _ _ hw
      simp only [unfed, List.count_append] at this ⊢
      simp only [dialedAddrs, inflight, hpc, List.map_append, List.map_cons, List.map_nil,
        List.count_append, List.count_cons, List.count_nil] at e1 e2
      omega
    · rw [List.perm_iff_count]; intro a
      have := h2 a
      have e1 := count_gather_set pendingSend a
        ⟨.send result, addr :: w.conns, w.dialed ++ [(addr, d)]⟩ _ _ _ hw
      have e2 := count_gather_set (produced f.bannerGrab) a
        ⟨.send result, addr :: w.conns, w.dialed ++ [(addr, d)]⟩ _ _ _ hw
      simp only [List.count_append] at this ⊢
      simp only [pendingSend, produced, hpc, List.filterMap_append, List.filterMap_cons, hb,
        List.filterMap_nil, List.count_append, List.count_cons, List.count_nil] at e1 e2
      omega
    · intro w1 hw1
      rcases List.mem_or_eq_of_mem_set hw1 with hw1 | hw1
      · exact h4 w1 hw1
      · subst hw1
        have := h4 w (List.get?_mem hw)
        have hd : ∃ r, d = .connected r := by
          cases d with
          | failed => simp [workerBody_failed] at hb
          | connected r => exact ⟨r, rfl⟩
        rcases hd with ⟨r, rfl⟩
        simp only [hpc] at this
        simp [connectedAddrs, this]
  | sendPanic i w result hp hw hpc hc =>
    exact ⟨List.perm_iff_count.2 h1, List.perm_iff_count.2 h2, h3, h4⟩
  | send i w result hp hw hpc hc hl =>
    refine ⟨?_, ?_, h3, ?_⟩
    · rw [List.perm_iff_count]; intro a
      have := h1 a
      have e1 := count_gather_set dialedAddrs a { w with pc := .recv } _ _ _ hw
      have e2 := count_gather_set inflight a { w with pc := .recv } _ _ _ hw
      simp only [unfed, List.count_append] at this ⊢
      simp only [dialedAddrs, inflight, hpc, List.count_nil] at e1 e2
      omega
    · rw [List.perm_iff_count]; intro a
      have := h2 a
      have e1 := count_gather_set pendingSend a { w with pc := .recv } _ _ _ hw
      have e2 := count_gather_set (produced f.bannerGrab) a { w with pc := .recv } _ _ _ hw
      simp only [List.count_append, List.count_cons, List.count_nil] at this ⊢
      simp only [pendingSend, produced, hpc, List.count_cons, List.count_nil] at e1 e2
      omega
    · intro w1 hw1
      rcases List.mem_or_eq_of_mem_set hw1 with hw1 | hw1
      · exact h4 w1 hw1
      · subst hw1
        have := h4 w (List.get?_mem hw)
        simpa [hpc, connectedAddrs] using this
  | closerPanic hp hc hwg hr =>
    exact ⟨List.perm_iff_count.2 h1, List.perm_iff_count.2 h2, h3, h4⟩
  | closeResults hp hc hwg hr =>
    exact ⟨List.perm_iff_count.2 h1, List.perm_iff_count.2 h2, h3, h4⟩

/-! ## The control invariant -/

theorem running_append (ws : List Worker) (w : Worker) :
    running (ws ++ [w]) = running ws ++ (if w.pc = .done then [] else [w]) := by
  by_cases h : w.pc = .done <;> simp [running, List.filter_append, List.filter_cons, h]

theorem mem_running (ws : List Worker) (w : Worker) :
    w ∈ running ws ↔ w ∈ ws ∧ w.pc ≠ .done := by
  simp [running]

theorem running_eq_nil (ws : List Worker) :
    running ws = [] ↔ ∀ w ∈ ws, w.pc = .done := by
  simp [running, List.filter_eq_nil_iff]

theorem length_running_set (w1 : Worker) :
    ∀ (ws : List Worker) (i : Nat) (w : Worker), ws.get? i = some w →
      (running (ws.set i w1)).length + (if w.pc = .done then 0 else 1)
        = (running ws).length + (if w1.pc = .done then 0 else 1) := by
  intro ws
  induction ws with
  | nil => intro i w h; simp at h
  | cons x xs ih =>
    intro i w h
    cases i with
    | zero =>
      simp only [List.get?_cons_zero, Option.some.injEq] at h
      subst h
      by_cases h1 : x.pc = .done <;> by_cases h2 : w1.pc = .done <;>
        simp [running, List.filter_cons, h1, h2]
    | succ i =>
      simp only [List.get?_cons_succ] at h
      have := ih i w h
      by_cases h1 : x.pc = .done <;>
        simp only [running, List.set_cons_succ, List.filter_cons, h1, ne_eq, not_true_eq_false,
          not_false_eq_true, decide_True, decide_False, if_true, if_false, Bool.false_eq_true,
          List.length_cons] at this ⊢ <;> omega

theorem running_set_live (ws : List Worker) (i : Nat) (w w1 : Worker)
    (h : ws.get? i = some w) (hw : w.pc ≠ .done) (hw1 : w1.pc ≠ .done) :
    (running (ws.set i w1)).length = (running ws).length := by
  have := length_running_set w1 ws i w h
  simp only [hw, hw1, if_false] at this
  omega

theorem live_of_get (ws : List Worker) (i : Nat) (w : Worker)
    (h : ws.get? i = some w) (hw : w.pc ≠ .done) : running ws ≠ [] := by
  intro e
  exact hw ((running_eq_nil ws).1 e w (List.get?_mem h))

theorem set_ne_nil (ws : List Worker) (i : Nat) (w : Worker) (h : ws ≠ []) :
    ws.set i w ≠ [] := by
  intro e
  have := congrArg List.length e
  simp only [List.length_set, List.length_nil] at this
  exact h (List.length_eq_zero.1 this)

theorem Ctl_init (f : Flags) : Ctl f initState := by
  refine ⟨rfl, rfl, ?_, ?_, ?_, ?_, ?_, ?_, ?_, ?_⟩ <;> simp [initState]


theorem Ctl_step (f : Flags) (scanPorts : List Int) (s s1 : State)
    (h : Step f scanPorts s s1) (hc : Ctl f s) : Ctl f s1 := by
  obtain ⟨c1, c2, c3, c4, c5, c6, c7, c8, c9, c10⟩ := hc
  cases h with
  | spawn i hp hpc hi =>
    refine ⟨c1, ?_, ?_, ?_, c5, ?_, ?_, ?_, ?_, ?_⟩
    · simp [running_append, c2]
    · simp_all
    · simp_all
    · simp_all
    · simp
    · intro w hw hd
      rcases List.mem_append.1 hw with hw | hw
      · exact c8 w hw hd
      · simp only [List.mem_singleton] at hw
        subst hw
        simp at hd
    · intro j _; right; simp
    · intro hk; exact absurd rfl (hk _)
  | spawnEnd i hp hpc hi =>
    refine ⟨c1, c2, ?_, ?_, c5, c6, ?_, c8, ?_, ?_⟩
    · simp_all
    · simp_all
    · simp
    · simp
    · intro _ hw
      rcases c9 i hpc with ⟨h1, _⟩ | h1
      · subst h1; exact absurd hw hi
      · exact h1
  | feed port rest hp hpc hl =>
    refine ⟨c1, c2, ?_, ?_, c5, c6, ?_, ?_, ?_, ?_⟩
    · simp_all
    · simp_all
    · simp
    · intro w hw hd
      have := c8 w hw hd
      simp_all
    · simp
    · intro hk hw
      exact c10 (by simp [hpc]) hw
  | closeTasks hp hpc =>
    refine ⟨c1, c2, ?_, ?_, c5, c6, ?_, ?_, ?_, ?_⟩
    · simp_all
    · simp_all
    · simp
    · intro w hw hd
      have := c8 w hw hd
      simp_all
    · simp
    · intro hk hw
      exact c10 (by simp [hpc]) hw
  | startCloser hp hpc =>
    refine ⟨c1, c2, ?_, ?_, ?_, ?_, ?_, ?_, ?_, ?_⟩
    · simp_all
    · simp_all
    · simp_all
    · simp
    · simp
    · intro w hw hd
      exact c8 w hw hd
    · simp
    · intro hk hw
      exact c10 (by simp [hpc]) hw
  | collectOne result rest hp hpc hr =>
    refine ⟨c1, c2, c3, c4, c5, c6, ?_, c8, c9, c10⟩
    simp_all
  | finish hp hpc hr hcl =>
    refine ⟨c1, c2, ?_, ?_, c5, c6, ?_, c8, ?_, ?_⟩
    · simp_all
    · simp_all
    · simp_all
    · simp
    · intro hk hw
      exact c10 (by simp [hpc]) hw
  | recvTask i w addr rest hp hw hpc ht =>
    have hlive : w.pc ≠ .done := by simp [hpc]
    refine ⟨c1, ?_, c3, c4, c5, ?_, ?_, ?_, ?_, ?_⟩
    · rw [c2]; exact (running_set_live _ _ _ _ hw hlive (by simp)).symm
    · intro hd; exact absurd (c6 hd) (live_of_get _ _ _ hw hlive)
    · intro hfin
      have := c7 hfin
      exact absurd ((c5.1 this.1) |> c6) (live_of_get _ _ _ hw hlive)
    · intro w1 hw1 hd
      rcases List.mem_or_eq_of_mem_set hw1 with hw1 | hw1
      · have := c8 w1 hw1 hd; simp_all
      · subst hw1; simp at hd
    · intro j hj
      rcases c9 j hj with ⟨_, h1⟩ | h1
      · rw [h1] at hw; simp at hw
      · right; exact set_ne_nil _ _ _ h1
    · intro hk hw1
      exact set_ne_nil _ _ _ (c10 hk hw1)
  | donePanic i w hp hw hpc ht hcl hwg =>
    have hlive : w.pc ≠ .done := by simp [hpc]
    have := live_of_get _ _ _ hw hlive
    rw [hwg] at c2
    exact absurd (List.length_eq_zero.1 c2.symm) this
  | workerReturn i w hp hw hpc ht hcl hwg =>
    have hlive : w.pc ≠ .done := by simp [hpc]
    refine ⟨c1, ?_, c3, c4, c5, ?_, c7, ?_, ?_, ?_⟩
    · have := length_running_set { w with pc := .done, conns := [] } _ _ _ hw
      simp only [hlive, if_false, if_true] at this
      simp only
      omega
    · intro hd; exact absurd (c6 hd) (live_of_get _ _ _ hw hlive)
    · intro w1 hw1 hd
      exact ⟨hcl, ht⟩
    · intro j hj
      rcases c9 j hj with ⟨_, h1⟩ | h1
      · rw [h1] at hw; simp at hw
      · right; exact set_ne_nil _ _ _ h1
    · intro hk hw1
      exact set_ne_nil _ _ _ (c10 hk hw1)
  | dialFail i w addr d hp hw hpc hdl hb =>
    have hlive : w.pc ≠ .done := by simp [hpc]
    refine ⟨c1, ?_, c3, c4, c5, ?_, c7, ?_, ?_, ?_⟩
    · rw [c2]; exact (running_set_live _ _ _ _ hw hlive (by simp)).symm
    · intro hd; exact absurd (c6 hd) (live_of_get _ _ _ hw hlive)
    · intro w1 hw1 hd
      rcases List.mem_or_eq_of_mem_set hw1 with hw1 | hw1
      · exact c8 w1 hw1 hd
      · subst hw1; simp at hd
    · intro j hj
      rcases c9 j hj with ⟨_, h1⟩ | h1
      · rw [h1] at hw; simp at hw
      · right; exact set_ne_nil _ _ _ h1
    · intro hk hw1
      exact set_ne_nil _ _ _ (c10 hk hw1)
  | dialOk i w addr d result hp hw hpc hdl hb =>
    have hlive : w.pc ≠ .done := by simp [hpc]
    refine ⟨c1, ?_, c3, c4, c5, ?_, c7, ?_, ?_, ?_⟩
    · rw [c2]; exact (running_set_live _ _ _ _ hw hlive (by simp)).symm
    · intro hd; exact absurd (c6 hd) (live_of_get _ _ _ hw hlive)
    · intro w1 hw1 hd
      rcases List.mem_or_eq_of_mem_set hw1 with hw1 | hw1
      · exact c8 w1 hw1 hd
      · subst hw1; simp at hd
    · intro j hj
      rcases c9 j hj with ⟨_, h1⟩ | h1
      · rw [h1] at hw; simp at hw
      · right; exact set_ne_nil _ _ _ h1
    · intro hk hw1
      exact set_ne_nil _ _ _ (c10 hk hw1)
  | sendPanic i w result hp hw hpc hcl =>
    have hlive : w.pc ≠ .done := by simp [hpc]
    exact absurd (c6 (c5.1 hcl)) (live_of_get _ _ _ hw hlive)
  | send i w result hp hw hpc hcl hl =>
    have hlive : w.pc ≠ .done := by simp [hpc]
    refine ⟨c1, ?_, c3, c4, c5, ?_, ?_, ?_, ?_, ?_⟩
    · rw [c2]; exact (running_set_live _ _ _ _ hw hlive (by simp)).symm
    · intro hd; exact absurd (c6 hd) (live_of_get _ _ _ hw hlive)
    · intro hfin
      have := c7 hfin
      simp_all
    · intro w1 hw1 hd
      rcases List.mem_or_eq_of_mem_set hw1 with hw1 | hw1
      · exact c8 w1 hw1 hd
      · subst hw1; simp at hd
    · intro j hj
      rcases c9 j hj with ⟨_, h1⟩ | h1
      · rw [h1] at hw; simp at hw
      · right; exact set_ne_nil _ _ _ h1
    · intro hk hw1
      exact set_ne_nil _ _ _ (c10 hk hw1)
  | closerPanic hp hcl hwg hr =>
    have := c5.1 hr
    rw [hcl] at this
    exact absurd this (by simp)
  | closeResults hp hcl hwg hr =>
    refine ⟨c1, c2, ?_, c4, ?_, ?_, ?_, c8, c9, c10⟩
    · simp_all
    · simp
    · intro _
      rw [hwg] at c2
      exact List.length_eq_zero.1 c2.symm
    · intro hfin
      have := c7 hfin
      simp_all

/-! ## The invariant of a run with one worker -/

theorem single_of_get (ws : List Worker) (i : Nat) (w : Worker)
    (hl : ws.length ≤ 1) (h : ws.get? i = some w) : ws = [w] ∧ i = 0 := by
  cases ws with
  | nil => simp at h
  | cons x xs =>
    cases xs with
    | nil =>
      cases i with
      | zero => simp at h; subst h; exact ⟨rfl, rfl⟩
      | succ i => simp at h
    | cons y ys => simp at hl

theorem Serial_init (f : Flags) (scanPorts : List Int) : Serial f scanPorts initState := by
  refine ⟨?_, ?_, ?_, ?_⟩ <;> simp [initState, gather, unfed]

theorem Serial_step (f : Flags) (scanPorts : List Int) (s s1 : State) (h1w : f.workers = 1)
    (h : Step f scanPorts s s1) (hs : Serial f scanPorts s) : Serial f scanPorts s1 := by
  obtain ⟨a1, a2, a3, a4⟩ := hs
  cases h with
  | spawn i hp hpc hi =>
    rcases a2 i hpc with ⟨hi1, hws⟩ | ⟨hi2, _⟩
    · subst hi1
      refine ⟨?_, ?_, ?_, ?_⟩
      · simp [hws]
      · intro j hj
        right
        simp only [MainPc.spawn.injEq] at hj
        subst hj
        exact ⟨by decide, by simp⟩
      · simp only [unfed, hpc, hws, gather, dialedAddrs, inflight] at a3 ⊢
        simpa using a3
      · simp only [hws, gather, pendingSend, produced] at a4 ⊢
        simpa using a4
    · subst hi2; omega
  | spawnEnd i hp hpc hi =>
    refine ⟨a1, ?_, ?_, a4⟩
    · simp
    · simpa only [unfed, hpc] using a3
  | feed port rest hp hpc hl =>
    refine ⟨a1, ?_, ?_, a4⟩
    · simp
    · simp only [unfed, hpc, enumeratedAddrs, List.map_cons] at a3 ⊢
      simpa using a3
  | closeTasks hp hpc =>
    refine ⟨a1, ?_, ?_, a4⟩
    · simp
    · simpa only [unfed, hpc, enumeratedAddrs, List.map_nil] using a3
  | startCloser hp hpc =>
    refine ⟨a1, ?_, ?_, a4⟩
    · simp
    · simpa only [unfed, hpc] using a3
  | collectOne result rest hp hpc hr =>
    refine ⟨a1, ?_, ?_, ?_⟩
    · simpa only [hpc] using a2
    · simpa only [unfed, hpc] using a3
    · simp only [hr] at a4 ⊢
      simpa using a4
  | finish hp hpc hr hcl =>
    refine ⟨a1, ?_, ?_, a4⟩
    · simp
    · simpa only [unfed, hpc] using a3
  | recvTask i w addr rest hp hw hpc ht =>
    obtain ⟨hws, hi0⟩ := single_of_get _ _ _ a1 hw
    subst hi0
    refine ⟨by simp [hws], ?_, ?_, ?_⟩
    · intro j hj
      rcases a2 j hj with ⟨_, h0⟩ | ⟨h2, _⟩
      · rw [h0] at hws; simp at hws
      · right; exact ⟨h2, by simp [hws]⟩
    · simp only [hws, ht, gather, dialedAddrs, inflight, hpc, unfed, List.set_cons_zero] at a3 ⊢
      simpa using a3
    · simp only [hws, gather, pendingSend, produced, hpc, List.set_cons_zero] at a4 ⊢
      simpa using a4
  | donePanic i w hp hw hpc ht hcl hwg =>
    exact ⟨a1, a2, a3, a4⟩
  | workerReturn i w hp hw hpc ht hcl hwg =>
    obtain ⟨hws, hi0⟩ := single_of_get _ _ _ a1 hw
    subst hi0
    refine ⟨by simp [hws], ?_, ?_, ?_⟩
    · intro j hj
      rcases a2 j hj with ⟨_, h0⟩ | ⟨h2, _⟩
      · rw [h0] at hws; simp at hws
      · right; exact ⟨h2, by simp [hws]⟩
    · simp only [hws, ht, gather, dialedAddrs, inflight, hpc, unfed, List.set_cons_zero] at a3 ⊢
      simpa using a3
    · simp only [hws, gather, pendingSend, produced, hpc, List.set_cons_zero] at a4 ⊢
      simpa using a4
  | dialFail i w addr d hp hw hpc hdl hb =>
    obtain ⟨hws, hi0⟩ := single_of_get _ _ _ a1 hw
    subst hi0
    refine ⟨by simp [hws], ?_, ?_, ?_⟩
    · intro j hj
      rcases a2 j hj with ⟨_, h0⟩ | ⟨h2, _⟩
      · rw [h0] at hws; simp at hws
      · right; exact ⟨h2, by simp [hws]⟩
    · simp only [hws, gather, dialedAddrs, inflight, hpc, unfed, List.set_cons_zero] at a3 ⊢
      simpa using a3
    · simp only [hws, gather, pendingSend, produced, hpc, List.set_cons_zero] at a4 ⊢
      simpa [hb] using a4
  | dialOk i w addr d result hp hw hpc hdl hb =>
    obtain ⟨hws, hi0⟩ := single_of_get _ _ _ a1 hw
    subst hi0
    refine ⟨by simp [hws], ?_, ?_, ?_⟩
    · intro j hj
      rcases a2 j hj with ⟨_, h0⟩ | ⟨h2, _⟩
      · rw [h0] at hws; simp at hws
      · right; exact ⟨h2, by simp [hws]⟩
    · simp only [hws, gather, dialedAddrs, inflight, hpc, unfed, List.set_cons_zero] at a3 ⊢
      simpa using a3
    · simp only [hws, gather, pendingSend, produced, hpc, List.set_cons_zero] at a4 ⊢
      simp only [List.append_nil] at a4
      simp [hb, ← a4]
  | sendPanic i w result hp hw hpc hcl =>
    exact ⟨a1, a2, a3, a4⟩
  | send i w result hp hw hpc hcl hl =>
    obtain ⟨hws, hi0⟩ := single_of_get _ _ _ a1 hw
    subst hi0
    refine ⟨by simp [hws], ?_, ?_, ?_⟩
    · intro j hj
      rcases a2 j hj with ⟨_, h0⟩ | ⟨h2, _⟩
      · rw [h0] at hws; simp at hws
      · right; exact ⟨h2, by simp [hws]⟩
    · simp only [hws, gather, dialedAddrs, inflight, hpc, unfed, List.set_cons_zero] at a3 ⊢
      simpa using a3
    · simp only [hws, gather, pendingSend, produced, hpc, List.set_cons_zero] at a4 ⊢
      simpa using a4
  | closerPanic hp hcl hwg hr =>
    exact ⟨a1, a2, a3, a4⟩
  | closeResults hp hcl hwg hr =>
    exact ⟨a1, a2, a3, a4⟩

/-! ## The starting loop -/

theorem Pool_init (f : Flags) : Pool f initState := by
  refine ⟨?_, ?_⟩
  · intro i hi
    simp only [initState, MainPc.spawn.injEq] at hi
    subst hi
    simp [initState]
  · intro h; exact absurd rfl (h 1)

theorem Pool_step (f : Flags) (scanPorts : List Int) (s s1 : State) (hmax : f.workers < maxInt)
    (h : Step f scanPorts s s1) (hp : Pool f s) : Pool f s1 := by
  obtain ⟨p1, p2⟩ := hp
  cases h with
  | spawn i hp hpc hi =>
    obtain ⟨q1, q2, q3⟩ := p1 i hpc
    have hwrap : wrapInt (i + 1) = i + 1 := by
      apply wrapInt_of_isGoInt
      simp only [isGoInt, minInt, maxInt] at hmax ⊢
      omega
    refine ⟨?_, ?_⟩
    · intro j hj
      simp only [MainPc.spawn.injEq] at hj
      subst hj
      rw [hwrap]
      simp only [List.length_append, List.length_singleton, Nat.cast_add, Nat.cast_one]
      omega
    · intro hk; exact absurd rfl (hk _)
  | spawnEnd i hp hpc hi =>
    obtain ⟨q1, q2, q3⟩ := p1 i hpc
    refine ⟨by simp, ?_⟩
    intro _
    simp only
    omega
  | feed port rest hp hpc hl => exact ⟨by simp, fun _ => p2 (by simp [hpc])⟩
  | closeTasks hp hpc => exact ⟨by simp, fun _ => p2 (by simp [hpc])⟩
  | startCloser hp hpc => exact ⟨by simp, fun _ => p2 (by simp [hpc])⟩
  | collectOne result rest hp hpc hr => exact ⟨by simp [hpc], fun _ => p2 (by simp [hpc])⟩
  | finish hp hpc hr hcl => exact ⟨by simp, fun _ => p2 (by simp [hpc])⟩
  | recvTask i w addr rest hp hw hpc ht =>
    exact ⟨by simpa using p1, by simpa using p2⟩
  | donePanic i w hp hw hpc ht hcl hwg => exact ⟨p1, p2⟩
  | workerReturn i w hp hw hpc ht hcl hwg =>
    exact ⟨by simpa using p1, by simpa using p2⟩
  | dialFail i w addr d hp hw hpc hdl hb =>
    exact ⟨by simpa using p1, by simpa using p2⟩
  | dialOk i w addr d result hp hw hpc hdl hb =>
    exact ⟨by simpa using p1, by simpa using p2⟩
  | sendPanic i w result hp hw hpc hcl => exact ⟨p1, p2⟩
  | send i w result hp hw hpc hcl hl =>
    exact ⟨by simpa using p1, by simpa using p2⟩
  | closerPanic hp hcl hwg hr => exact ⟨p1, p2⟩
  | closeResults hp hcl hwg hr => exact ⟨p1, p2⟩

/-! ## Connected dials are dials of addresses that split -/

theorem Dialable_init : Dialable initState := by
  intro w hw
  simp [initState] at hw

theorem Dialable_set (s : State) (i : Nat) (w w1 : Worker) (hd : Dialable s)
    (hw : s.workers.get? i = some w)
    (h1 : ∀ ad ∈ w1.dialed, ad ∈ w.dialed ∨
      (ad.2.isConnected = true → (SplitHostPort ad.1).2.2 = none)) :
    ∀ x ∈ s.workers.set i w1, ∀ ad ∈ x.dialed,
      ad.2.isConnected = true → (SplitHostPort ad.1).2.2 = none := by
  intro x hx ad had
  rcases List.mem_or_eq_of_mem_set hx with hx | hx
  · exact hd x hx ad had
  · subst hx
    rcases h1 ad had with h | h
    · exact hd w (List.get?_mem hw) ad h
    · exact h

theorem Dialable_step (f : Flags) (scanPorts : List Int) (s s1 : State)
    (h : Step f scanPorts s s1) (hd : Dialable s) : Dialable s1 := by
  cases h with
  | spawn i hp hpc hi =>
    intro w hw
    rcases List.mem_append.1 hw with hw | hw
    · exact hd w hw
    · simp only [List.mem_singleton] at hw
      subst hw
      intro ad had
      simp at had
  | recvTask i w addr rest hp hw hpc ht =>
    exact Dialable_set s i w _ hd hw (fun ad had => Or.inl had)
  | workerReturn i w hp hw hpc ht hcl hwg =>
    exact Dialable_set s i w _ hd hw (fun ad had => Or.inl had)
  | dialFail i w addr d hp hw hpc hdl hb =>
    refine Dialable_set s i w _ hd hw (fun ad had => ?_)
    rcases List.mem_append.1 had with had | had
    · exact Or.inl had
    · simp only [List.mem_singleton] at had
      subst had
      exact Or.inr hdl
  | dialOk i w addr d result hp hw hpc hdl hb =>
    refine Dialable_set s i w _ hd hw (fun ad had => ?_)
    rcases List.mem_append.1 had with had | had
    · exact Or.inl had
    · simp only [List.mem_singleton] at had
      subst had
      exact Or.inr hdl
  | send i w result hp hw hpc hcl hl =>
    exact Dialable_set s i w _ hd hw (fun ad had => Or.inl had)
  | _ => exact hd

/-! ## Invariants along a run -/

theorem run_inv (f : Flags) (scanPorts : List Int) (P : State → Prop)
    (hP : ∀ s s1, Step f scanPorts s s1 → P s → P s1) (es : List Event) :
    ∀ s s1, run f scanPorts s es = some s1 → P s → P s1 := by
  induction es with
  | nil =>
    intro s s1 h hs
    simp only [run, Option.some.injEq] at h
    subst h; exact hs
  | cons e es ih =>
    intro s s1 h hs
    simp only [run] at h
    cases hstep : step f scanPorts s e with
    | none => simp [hstep] at h
    | some s2 =>
      simp only [hstep] at h
      exact ih s2 s1 h (hP s s2 (Step_of_step f scanPorts s s2 e hstep) hs)

theorem Ctl_run (f : Flags) (scanPorts : List Int) (es : List Event) (s : State)
    (h : run f scanPorts initState es = some s) : Ctl f s :=
  run_inv f scanPorts (Ctl f) (Ctl_step f scanPorts) es _ _ h (Ctl_init f)

theorem Flow_run (f : Flags) (scanPorts : List Int) (es : List Event) (s : State)
    (h : run f scanPorts initState es = some s) : Flow f scanPorts s :=
  run_inv f scanPorts (Flow f scanPorts) (Flow_step f scanPorts) es _ _ h (Flow_init f scanPorts)

theorem Serial_run (f : Flags) (scanPorts : List Int) (h1 : f.workers = 1) (es : List Event)
    (s : State) (h : run f scanPorts initState es = some s) : Serial f scanPorts s :=
  run_inv f scanPorts (Serial f scanPorts) (fun s s1 => Serial_step f scanPorts s s1 h1) es _ _ h
    (Serial_init f scanPorts)

theorem Dialable_run (f : Flags) (scanPorts : List Int) (es : List Event) (s : State)
    (h : run f scanPorts initState es = some s) : Dialable s :=
  run_inv f scanPorts Dialable (Dialable_step f scanPorts) es _ _ h Dialable_init

theorem Pool_run (f : Flags) (scanPorts : List Int) (hmax : f.workers < maxInt)
    (es : List Event) (s : State) (h : run f scanPorts initState es = some s) : Pool f s :=
  run_inv f scanPorts (Pool f) (fun s s1 => Pool_step f scanPorts s s1 hmax) es _ _ h
    (Pool_init f)

/-! ## Every step brings the program closer to its end -/

theorem load_append (ws : List Worker) (w : Worker) :
    load (ws ++ [w]) = load ws + workerWeight w := by
  induction ws with
  | nil => simp [load]
  | cons x xs ih =>
    show load (x :: (xs ++ [w])) = load (x :: xs) + workerWeight w
    simp only [load, ih]; omega

theorem load_set (w1 : Worker) :
    ∀ (ws : List Worker) (i : Nat) (w : Worker), ws.get? i = some w →
      load (ws.set i w1) + workerWeight w = load ws + workerWeight w1 := by
  intro ws
  induction ws with
  | nil => intro i w h; simp at h
  | cons x xs ih =>
    intro i w h
    cases i with
    | zero =>
      simp only [List.get?_cons_zero, Option.some.injEq] at h
      subst h
      simp only [List.set_cons_zero, load]
      omega
    | succ i =>
      simp only [List.get?_cons_succ] at h
      have := ih i w h
      simp only [List.set_cons_succ, load]
      omega

theorem stepsLeft_step (f : Flags) (scanPorts : List Int) (s s1 : State)
    (hmax : f.workers < maxInt) (h : Step f scanPorts s s1) (hc : Ctl f s) (hp : Pool f s) :
    stepsLeft f scanPorts s1 < stepsLeft f scanPorts s := by
  have hc1 := Ctl_step f scanPorts s s1 h hc
  cases h with
  | spawn i hp0 hpc hi =>
    obtain ⟨q1, q2, q3⟩ := hp.counter i hpc
    have hwrap : wrapInt (i + 1) = i + 1 := by
      apply wrapInt_of_isGoInt
      simp only [isGoInt, minInt, maxInt] at hmax ⊢
      omega
    simp only [stepsLeft, hpc, hwrap, load_append, workerWeight]
    omega
  | spawnEnd i hp0 hpc hi =>
    simp only [stepsLeft, hpc]
    omega
  | feed port rest hp0 hpc hl =>
    simp only [stepsLeft, hpc, List.length_append, List.length_cons, List.length_nil]
    omega
  | closeTasks hp0 hpc =>
    simp only [stepsLeft, hpc, List.length_nil]
    omega
  | startCloser hp0 hpc =>
    have := (hc.closer_started).2 (by simp [hpc])
    simp only [stepsLeft, hpc, this]
    omega
  | collectOne result rest hp0 hpc hr =>
    simp only [stepsLeft, hpc, hr, List.length_cons]
    omega
  | finish hp0 hpc hr hcl =>
    simp only [stepsLeft, hpc]
    omega
  | recvTask i w addr rest hp0 hw hpc ht =>
    have := load_set { w with pc := .dial addr } _ _ _ hw
    simp only [workerWeight, hpc] at this
    simp only [stepsLeft, ht, List.length_cons]
    omega
  | donePanic i w hp0 hw hpc ht hcl hwg => exact absurd hc1.noPanic (by simp)
  | workerReturn i w hp0 hw hpc ht hcl hwg =>
    have := load_set { w with pc := .done, conns := [] } _ _ _ hw
    simp only [workerWeight, hpc] at this
    simp only [stepsLeft]
    omega
  | dialFail i w addr d hp0 hw hpc hdl hb =>
    have := load_set { w with pc := .recv, dialed := w.dialed ++ [(addr, d)] } _ _ _ hw
    simp only [workerWeight, hpc] at this
    simp only [stepsLeft]
    omega
  | dialOk i w addr d result hp0 hw hpc hdl hb =>
    have := load_set ⟨.send result, addr :: w.conns, w.dialed ++ [(addr, d)]⟩ _ _ _ hw
    simp only [workerWeight, hpc] at this
    simp only [stepsLeft]
    omega
  | sendPanic i w result hp0 hw hpc hcl => exact absurd hc1.noPanic (by simp)
  | send i w result hp0 hw hpc hcl hl =>
    have := load_set { w with pc := .recv } _ _ _ hw
    simp only [workerWeight, hpc] at this
    simp only [stepsLeft, List.length_append, List.length_cons, List.length_nil]
    omega
  | closerPanic hp0 hcl hwg hr => exact absurd hc1.noPanic (by simp)
  | closeResults hp0 hcl hwg hr =>
    simp only [stepsLeft, hcl]
    omega

theorem stepsLeft_run (f : Flags) (scanPorts : List Int) (hmax : f.workers < maxInt)
    (es : List Event) :
    ∀ s s1, run f scanPorts s es = some s1 → Ctl f s → Pool f s →
      es.length + stepsLeft f scanPorts s1 ≤ stepsLeft f scanPorts s := by
  induction es with
  | nil =>
    intro s s1 h _ _
    simp only [run, Option.some.injEq] at h
    subst h; simp
  | cons e es ih =>
    intro s s1 h hc hp
    simp only [run] at h
    cases hstep : step f scanPorts s e with
    | none => simp [hstep] at h
    | some s2 =>
      simp only [hstep] at h
      have hS := Step_of_step f scanPorts s s2 e hstep
      have h1 := stepsLeft_step f scanPorts s s2 hmax hS hc hp
      have h2 := ih s2 s1 h (Ctl_step f scanPorts s s2 hS hc) (Pool_step f scanPorts s s2 hmax hS hp)
      simp only [List.length_cons]
      omega

/-! ## Some goroutine can always step -/

theorem length_gather_get {α : Type} (g : Worker → List α) :
    ∀ (ws : List Worker) (i : Nat) (w : Worker), ws.get? i = some w →
      (g w).length ≤ (gather g ws).length := by
  intro ws
  induction ws with
  | nil => intro i w h; simp at h
  | cons x xs ih =>
    intro i w h
    cases i with
    | zero =>
      simp only [List.get?_cons_zero, Option.some.injEq] at h
      subst h
      simp [gather]
    | succ i =>
      simp only [List.get?_cons_succ] at h
      have := ih i w h
      simp only [gather, List.length_append]
      omega

theorem length_produced_le (b : Bool) (ws : List Worker) :
    (gather (produced b) ws).length ≤ (gather dialedAddrs ws).length := by
  induction ws with
  | nil => simp [gather]
  | cons x xs ih =>
    have : (produced b x).length ≤ (dialedAddrs x).length := by
      simp only [produced, dialedAddrs, List.length_map]
      exact List.length_filterMap_le _ _
    simp only [gather, List.length_append]
    omega

theorem length_enumeratedAddrs (f : Flags) (scanPorts : List Int) :
    (enumeratedAddrs f scanPorts).length = scanPorts.length := by
  simp [enumeratedAddrs]

theorem results_room (f : Flags) (scanPorts : List Int) (s : State) (hfl : Flow f scanPorts s) :
    s.collected.length + s.results.length + (gather pendingSend s.workers).length
      ≤ scanPorts.length := by
  have h1 := hfl.tasksPerm.length_eq
  have h2 := hfl.resultsPerm.length_eq
  have h3 := length_produced_le f.bannerGrab s.workers
  simp only [List.length_append, length_enumeratedAddrs] at h1 h2
  omega

theorem worker_can_step (f : Flags) (scanPorts : List Int) (s : State) (i : Nat) (w : Worker)
    (hc : Ctl f s) (hfl : Flow f scanPorts s) (hw : s.workers.get? i = some w)
    (hlive : w.pc ≠ .done) (htasks : s.tasks ≠ [] ∨ s.tasksClosed = true) :
    ∀ d, (step f scanPorts s (.worker i d)).isSome = true := by
  intro d
  simp only [step, hc.noPanic, Bool.false_eq_true, if_false, stepWorker, hw]
  cases hpc : w.pc with
  | recv =>
    simp only
    cases ht : s.tasks with
    | cons a rest => simp
    | nil =>
      have hcl : s.tasksClosed = true := by
        rcases htasks with h | h
        · exact absurd ht h
        · exact h
      simp only [hcl, if_true]
      split <;> simp
  | dial addr =>
    simp only
    split <;> simp
  | send result =>
    simp only
    have h1 := results_room f scanPorts s hfl
    have h2 := length_gather_get pendingSend _ _ _ hw
    simp only [pendingSend, hpc, List.length_singleton] at h2
    have h3 : s.results.length < scanPorts.length := by omega
    simp only [h3, if_true]
    split <;> simp
  | done => exact absurd hpc hlive

theorem progress (f : Flags) (scanPorts : List Int) (s : State) (hw : 1 ≤ f.workers)
    (hc : Ctl f s) (hfl : Flow f scanPorts s) (hnf : s.pc ≠ .finished) :
    (step f scanPorts s .main).isSome = true ∨ (step f scanPorts s .closer).isSome = true ∨
      ∃ i, ∀ d, (step f scanPorts s (.worker i d)).isSome = true := by
  cases hpc : s.pc with
  | spawn i =>
    left
    simp only [step, hc.noPanic, Bool.false_eq_true, if_false, stepMain, hpc]
    split <;> simp
  | feed rest =>
    cases rest with
    | nil =>
      left
      simp [step, hc.noPanic, stepMain, hpc]
    | cons port rest =>
      by_cases hl : s.tasks.length < tasksCap
      · left
        simp [step, hc.noPanic, stepMain, hpc, hl]
      · right; right
        have hne : s.workers ≠ [] := hc.spawned (by simp [hpc]) hw
        cases hws : s.workers with
        | nil => exact absurd hws hne
        | cons w ws =>
          refine ⟨0, worker_can_step f scanPorts s 0 w hc hfl (by simp [hws]) ?_ ?_⟩
          · intro hd
            have := (hc.returned w (by simp [hws]) hd).1
            have h2 := hc.tasksClosed_iff.1 this
            simp [hpc] at h2
          · left
            intro ht
            simp [ht, tasksCap] at hl
  | startCloser =>
    left
    simp [step, hc.noPanic, stepMain, hpc]
  | collect =>
    cases hr : s.results with
    | cons r rest =>
      left
      simp [step, hc.noPanic, stepMain, hpc, hr]
    | nil =>
      by_cases hcl : s.resultsClosed = true
      · left
        simp [step, hc.noPanic, stepMain, hpc, hr, hcl]
      · have hcw : s.closer = .waiting := by
          have h1 : s.closer ≠ .notStarted := fun h => ((hc.closer_started.1 h).1 hpc)
          have h2 : s.closer ≠ .done := fun h => hcl (hc.resultsClosed_iff.2 h)
          cases hcc : s.closer with
          | notStarted => exact absurd hcc h1
          | waiting => rfl
          | done => exact absurd hcc h2
        by_cases hwg : s.wg = 0
        · right; left
          simp only [step, hc.noPanic, Bool.false_eq_true, if_false, stepCloser, hcw, hwg, if_true]
          split <;> simp
        · right; right
          have hrun : running s.workers ≠ [] := by
            intro e
            have := hc.wg_eq
            rw [e] at this
            exact hwg this
          obtain ⟨w, hwmem⟩ := List.exists_mem_of_ne_nil _ hrun
          obtain ⟨hwin, hlive⟩ := (mem_running _ _).1 hwmem
          obtain ⟨i, hi⟩ := List.get?_of_mem hwin
          exact ⟨i, worker_can_step f scanPorts s i w hc hfl hi hlive
            (Or.inr (hc.tasksClosed_iff.2 (by simp [hpc])))⟩
  | finished => exact absurd hpc hnf

/-! ## The state at the end of a run -/

theorem gather_nil_of_done {α : Type} (g : Worker → List α)
    (hg : ∀ w, w.pc = .done → g w = []) (ws : List Worker)
    (h : ∀ w ∈ ws, w.pc = .done) : gather g ws = [] := by
  induction ws with
  | nil => rfl
  | cons x xs ih =>
    simp only [gather, hg x (h x (List.mem_cons_self _ _)),
      ih (fun w hw => h w (List.mem_cons_of_mem _ hw)), List.append_nil]

theorem gather_dialedAddrs (ws : List Worker) :
    gather dialedAddrs ws = (gather Worker.dialed ws).map Prod.fst := by
  induction ws with
  | nil => rfl
  | cons x xs ih => simp only [gather, ih, List.map_append, dialedAddrs]

theorem gather_produced (b : Bool) (ws : List Worker) :
    gather (produced b) ws
      = (gather Worker.dialed ws).filterMap (fun ad => workerBody ad.1 ad.2 b) := by
  induction ws with
  | nil => rfl
  | cons x xs ih => simp only [gather, ih, List.filterMap_append, produced]

theorem length_results_of_log (b : Bool) (log : List (GoString × DialOutcome)) :
    (log.filterMap (fun ad => workerBody ad.1 ad.2 b)).length
      = (log.filter (fun ad => ad.2.isConnected)).length := by
  induction log with
  | nil => rfl
  | cons x xs ih =>
    rcases x with ⟨a, d⟩
    cases d with
    | failed =>
      simp only [List.filterMap_cons, workerBody_failed, DialOutcome.isConnected,
        List.filter_cons, Bool.false_eq_true, if_false, ih]
    | connected r =>
      simp only [List.filterMap_cons, workerBody_connected, DialOutcome.isConnected,
        List.filter_cons, if_true, List.length_cons, ih]

theorem isOpen_of_log (b : Bool) (log : List (GoString × DialOutcome)) (r : ScanResult)
    (h : r ∈ log.filterMap (fun ad => workerBody ad.1 ad.2 b)) : r.IsOpen = true := by
  simp only [List.mem_filterMap] at h
  rcases h with ⟨ad, _, had⟩
  exact (workerBody_isOpen _ _ _ _ had).1

theorem all_done_of_finished (f : Flags) (s : State) (hc : Ctl f s) (hfin : s.pc = .finished) :
    ∀ w ∈ s.workers, w.pc = .done :=
  (running_eq_nil _).1 (hc.closer_done (hc.resultsClosed_iff.1 (hc.finished hfin).1))

theorem all_done_of_closed (f : Flags) (s : State) (hc : Ctl f s)
    (hcl : s.resultsClosed = true) : ∀ w ∈ s.workers, w.pc = .done :=
  (running_eq_nil _).1 (hc.closer_done (hc.resultsClosed_iff.1 hcl))

theorem tasks_nil_of_finished (f : Flags) (s : State) (hw : 1 ≤ f.workers) (hc : Ctl f s)
    (hfin : s.pc = .finished) : s.tasks = [] := by
  have hne : s.workers ≠ [] := hc.spawned (by simp [hfin]) hw
  obtain ⟨w, hwmem⟩ := List.exists_mem_of_ne_nil _ hne
  exact (hc.returned w hwmem (all_done_of_finished f s hc hfin w hwmem)).2

theorem dialed_perm_of_finished (f : Flags) (scanPorts : List Int) (s : State)
    (hw : 1 ≤ f.workers) (hc : Ctl f s) (hfl : Flow f scanPorts s) (hfin : s.pc = .finished) :
    (gather dialedAddrs s.workers).Perm (enumeratedAddrs f scanPorts) := by
  have h := hfl.tasksPerm
  have hd := all_done_of_finished f s hc hfin
  rw [gather_nil_of_done inflight (fun w hw => by simp [inflight, hw]) _ hd,
    tasks_nil_of_finished f s hw hc hfin] at h
  simpa [unfed, hfin] using h

theorem collected_perm_of_finished (f : Flags) (scanPorts : List Int) (s : State)
    (hc : Ctl f s) (hfl : Flow f scanPorts s) (hfin : s.pc = .finished) :
    s.collected.Perm (gather (produced f.bannerGrab) s.workers) := by
  have h := hfl.resultsPerm
  have hd := all_done_of_finished f s hc hfin
  rw [gather_nil_of_done pendingSend (fun w hw => by simp [pendingSend, hw]) _ hd,
    (hc.finished hfin).2] at h
  simpa using h

theorem ports_of_log (f : Flags) :
    ∀ (scanPorts : List Int) (log : List (GoString × DialOutcome)),
      log.map Prod.fst = enumeratedAddrs f scanPorts → (∀ p ∈ scanPorts, isGoInt p) →
      (∀ ad ∈ log, ad.2.isConnected = true → (SplitHostPort ad.1).2.2 = none) →
      (log.filterMap (fun ad => workerBody ad.1 ad.2 f.bannerGrab)).map (fun r => r.Port)
        = ((scanPorts.zip (log.map Prod.snd)).filter (fun pd => pd.2.isConnected)).map
            Prod.fst := by
  intro scanPorts
  induction scanPorts with
  | nil =>
    intro log h _ _
    simp only [enumeratedAddrs, List.map_nil, List.map_eq_nil_iff] at h
    subst h; rfl
  | cons p ps ih =>
    intro log h hp hsplit
    cases log with
    | nil => simp [enumeratedAddrs] at h
    | cons x xs =>
      rcases x with ⟨a, d⟩
      simp only [enumeratedAddrs, List.map_cons, List.cons.injEq] at h
      obtain ⟨ha, hrest⟩ := h
      have ih1 := ih xs hrest (fun q hq => hp q (List.mem_cons_of_mem _ hq))
        (fun ad had => hsplit ad (List.mem_cons_of_mem _ had))
      cases d with
      | failed =>
        simp only [List.filterMap_cons, workerBody_failed, List.map_cons, List.zip_cons_cons,
          List.filter_cons, DialOutcome.isConnected, Bool.false_eq_true, if_false]
        exact ih1
      | connected r =>
        simp only [List.filterMap_cons, workerBody_connected, List.map_cons, List.zip_cons_cons,
          List.filter_cons, DialOutcome.isConnected, if_true, List.cons.injEq]
        refine ⟨?_, ih1⟩
        have hs := hsplit (a, .connected r) (List.mem_cons_self _ _) rfl
        simp only at hs
        rw [ha] at hs ⊢
        exact extractPort_of_split f.target p (hp p (List.mem_cons_self _ _)) hs

theorem openPorts_eq_collected (f : Flags) (scanPorts : List Int) (s : State)
    (hfl : Flow f scanPorts s) (hall : ∀ r ∈ s.collected, r.IsOpen = true) :
    s.openPorts = s.collected := by
  rw [hfl.openPorts_eq]
  exact List.filter_eq_self.2 (fun r hr => hall r hr)

theorem openPorts_step (f : Flags) (scanPorts : List Int) (s s1 : State)
    (h : Step f scanPorts s s1) (hP : s.openPorts = s.collected.filter (fun r => r.IsOpen)) :
    s1.openPorts = s1.collected.filter (fun r => r.IsOpen) := by
  cases h with
  | collectOne result rest hp hpc hr =>
    simp only [List.filter_append, hP]
    cases hopen : result.IsOpen <;> simp [hopen]
  | _ => exact hP

theorem collect_drain (f : Flags) (scanPorts : List Int) (rs : List ScanResult) :
    ∀ (s : State), s.panicked = false → s.pc = .collect → s.results = rs →
      s.resultsClosed = true →
      run f scanPorts s (List.replicate (rs.length + 1) .main)
        = some { s with pc := .finished, results := [], collected := s.collected ++ rs,
                        openPorts := s.openPorts ++ rs.filter (fun r => r.IsOpen) } := by
  induction rs with
  | nil =>
    intro s hp hpc hr hcl
    cases s
    simp only at hp hpc hr hcl
    subst hp hpc hr hcl
    simp [run, step, stepMain]
  | cons r rs ih =>
    intro s hp hpc hr hcl
    have hstep : step f scanPorts s .main
        = some { s with results := rs, collected := s.collected ++ [r],
                        openPorts := if r.IsOpen then s.openPorts ++ [r] else s.openPorts } := by
      simp [step, stepMain, hp, hpc, hr]
    rw [List.length_cons, List.replicate_succ, run, hstep]
    simp only
    have h2 := ih { s with results := rs, collected := s.collected ++ [r],
                           openPorts := if r.IsOpen then s.openPorts ++ [r] else s.openPorts }
      hp hpc rfl hcl
    rw [h2]
    cases hopen : r.IsOpen <;> simp [hopen, List.filter_cons]

/-! ## The claims -/

/-- C2, counterexample: the token `70000` does not parse as an integer in
[1, 65535], and yet the enumeration succeeds with the port 70000 and the
program goes on to start its goroutines. -/
theorem big_port_token_is_enumerated :
    ¬ isPortToken "70000".toList ∧
    enumeratePorts 0 flagsBigPort = .ok [70000] ∧
    scan 0 flagsBigPort [] = .state initState := by
  refine ⟨?_, by decide, by decide⟩
  rintro ⟨v, hv, _, h2⟩
  have e : decimalValue "70000".toList = some 70000 := by decide
  rw [e] at hv
  simp only [Option.some.injEq] at hv
  omega

/-- C2, as amended: for a non-empty `-ports` list, if some token is not the
decimal numeral of a Go `int`, then under every schedule the program has exited
with `Invalid port` for such a token, no worker was started and no address was
dialed; and if every token is such a numeral, the enumeration succeeds. -/
theorem bad_token_exits_before_network (f : Flags) (hne : f.ports ≠ []) :
    ((∃ t ∈ Split f.ports ',', ¬ isIntToken t) →
      ∃ t ∈ Split f.ports ',', ¬ isIntToken t ∧ ∀ fuel events,
        scan fuel f events = .exited t ∧
        (scan fuel f events).workersStarted = 0 ∧ (scan fuel f events).dials = []) ∧
    ((∀ t ∈ Split f.ports ',', isIntToken t) →
      ∃ scanPorts, scanPorts.length = (Split f.ports ',').length ∧
        ∀ fuel, enumeratePorts fuel f = .ok scanPorts) := by
  constructor
  · intro h
    rcases parsePortList_exit _ [] h with ⟨t, ht, hnt, hp⟩
    refine ⟨t, ht, hnt, ?_⟩
    intro fuel events
    have e : scan fuel f events = .exited t := by
      simp only [scan, enumeratePorts, hne, ne_eq, not_false_eq_true, if_true, hp]
    rw [e]
    exact ⟨rfl, rfl, rfl⟩
  · intro h
    rcases parsePortList_total _ [] h with ⟨vals, hl, hp⟩
    refine ⟨vals, hl, ?_⟩
    intro fuel
    simp only [enumeratePorts, hne, ne_eq, not_false_eq_true, if_true, hp, List.nil_append]

/-- C2, witness: the amended claim at `-ports 80,http`. -/
theorem bad_token_exits_before_network_witness :
    ((∃ t ∈ Split flagsBadToken.ports ',', ¬ isIntToken t) →
      ∃ t ∈ Split flagsBadToken.ports ',', ¬ isIntToken t ∧ ∀ fuel events,
        scan fuel flagsBadToken events = .exited t ∧
        (scan fuel flagsBadToken events).workersStarted = 0 ∧
        (scan fuel flagsBadToken events).dials = []) ∧
    ((∀ t ∈ Split flagsBadToken.ports ',', isIntToken t) →
      ∃ scanPorts, scanPorts.length = (Split flagsBadToken.ports ',').length ∧
        ∀ fuel, enumeratePorts fuel flagsBadToken = .ok scanPorts) :=
  bad_token_exits_before_network flagsBadToken (by decide)

/-- C3, counterexample: the token `9223372036854775808` is a decimal integer,
with the value 2^63, and the program exits with `Invalid port` for it: `Atoi`
returns a range error for a value that does not fit `int`. -/
theorem huge_token_is_rejected :
    decimalValue flagsHugeToken.ports = some 9223372036854775808 ∧
    Split flagsHugeToken.ports ',' = [flagsHugeToken.ports] ∧
    enumeratePorts 0 flagsHugeToken = .exitInvalidPort "9223372036854775808".toList := by
  decide

/-- C3, as amended: for a non-empty `-ports` list whose tokens are all decimal
integers in the range of `int`, with the values `vals` in order, the enumerated
ports are exactly `vals` (same length, same order, duplicates kept), whatever
the start and end port are. -/
theorem explicit_list_in_input_order (f : Flags) (vals : List Int) (fuel : Nat)
    (hne : f.ports ≠ [])
    (htok : (Split f.ports ',').map decimalValue = vals.map some)
    (hint : ∀ v ∈ vals, isGoInt v) :
    vals.length = (Split f.ports ',').length ∧
    ∀ (startPort endPort : Int),
      enumeratePorts fuel { f with startPort := startPort, endPort := endPort } = .ok vals := by
  constructor
  · have := congrArg List.length htok
    simpa using this.symm
  · intro startPort endPort
    simp only [enumeratePorts, hne, ne_eq, not_false_eq_true, if_true]
    rw [parsePortList_ok _ [] vals htok hint]
    simp

/-- C3, witness: `-ports 80,443,8080` yields [80, 443, 8080], also with the
range flags set to 5000 and 5002. -/
theorem explicit_list_in_input_order_witness :
    [80, 443, 8080].length = (Split flagsList.ports ',').length ∧
    ∀ (startPort endPort : Int),
      enumeratePorts 0 { flagsList with startPort := startPort, endPort := endPort }
        = .ok [80, 443, 8080] :=
  explicit_list_in_input_order flagsList [80, 443, 8080] 0 (by decide) (by decide) (by decide)

/-- C4, counterexample: with start and end port both at the largest `int` the
loop `p <= end; p++` never ends, so no port sequence is ever produced (the
claim promises the one-element sequence). -/
theorem range_at_maxInt_never_ends :
    ¬ ∃ fuel scanPorts, enumeratePorts fuel flagsMaxRange = .ok scanPorts := by
  rintro ⟨fuel, ps, h⟩
  have hr : enumeratePorts fuel flagsMaxRange = .running := by
    simp only [enumeratePorts, flagsMaxRange, defaultFlags, ne_eq, not_true_eq_false, if_false]
    exact rangeLoop_maxInt fuel _ _ (by decide)
  rw [hr] at h
  exact PortsResult.noConfusion h

/-- C4, as amended: with no explicit port list, for every Go `int` start port
and every end port below the largest `int`, the loop ends and enumerates the
closed interval from start to end: a strictly ascending sequence that holds
exactly the integers between start and end, with end - start + 1 elements when
start <= end, and empty when start > end. -/
theorem range_is_closed_interval (f : Flags) (hports : f.ports = [])
    (hs : isGoInt f.startPort) (he : f.endPort < maxInt) :
    (∀ fuel, (f.endPort - f.startPort + 1).toNat < fuel →
      enumeratePorts fuel f = .ok (interval f.startPort f.endPort)) ∧
    (interval f.startPort f.endPort).Pairwise (· < ·) ∧
    (∀ x, x ∈ interval f.startPort f.endPort ↔ f.startPort ≤ x ∧ x ≤ f.endPort) ∧
    (f.startPort ≤ f.endPort →
      ((interval f.startPort f.endPort).length : Int) = f.endPort - f.startPort + 1) ∧
    (f.endPort < f.startPort → interval f.startPort f.endPort = []) := by
  refine ⟨?_, pairwise_interval _ _, mem_interval _ _, ?_, interval_nil _ _⟩
  · intro fuel hf
    simp only [enumeratePorts, hports, ne_eq, not_true_eq_false, if_false]
    rw [rangeLoop_ok _ f.startPort f.endPort [] fuel hs he rfl hf]
    simp
  · intro h
    rw [length_interval]
    omega

/-- C4, witness: start 5000 and end 5002 yield [5000, 5001, 5002]; start 10 and
end 5 yield the empty sequence. -/
theorem range_is_closed_interval_witness :
    enumeratePorts 4 flagsRange = .ok [5000, 5001, 5002] ∧
    enumeratePorts 1 flagsEmptyRange = .ok [] :=
  ⟨((range_is_closed_interval flagsRange (by decide) (by decide) (by decide)).1 4
      (by decide)).trans (by decide),
   ((range_is_closed_interval flagsEmptyRange (by decide) (by decide) (by decide)).1 1
      (by decide)).trans (by decide)⟩

/-- C1, counterexample: one enumerated target whose connect fails; the run ends
with no outcome put on the results stream or collected, not with one. -/
theorem failed_connect_yields_no_outcome :
    (enumeratedAddrs flagsOne [81]).length = 1 ∧
    (endOf flagsOne [81] runRefused).pc = .finished ∧
    gather Worker.dialed (endOf flagsOne [81] runRefused).workers
      = [("h:81".toList, .failed)] ∧
    (endOf flagsOne [81] runRefused).collected = [] ∧
    (endOf flagsOne [81] runRefused).results = [] := by
  decide

/-- C1, as amended: with at least one worker, under every schedule and every
behaviour of the network the program takes a bounded number of steps (for a
number of workers below the largest `int`), can always go on until `main` is
through, and then every enumerated target has been dialed exactly once, the
results stream is drained, the collected outcomes are exactly the results of
the dials that connected (as many as those dials, hence at most as many as the
targets), and every outcome has `IsOpen = true`.  A failed connect yields no
outcome. -/
theorem outcomes_are_the_connected_dials (f : Flags) (scanPorts : List Int)
    (hw : 1 ≤ f.workers) (es : List Event) (s : State)
    (hrun : run f scanPorts initState es = some s) :
    (f.workers < maxInt → es.length ≤ stepsLeft f scanPorts initState) ∧
    (s.pc ≠ .finished → canStep f scanPorts s) ∧
    (s.pc = .finished →
      ((gather Worker.dialed s.workers).map Prod.fst).Perm (enumeratedAddrs f scanPorts) ∧
      s.results = [] ∧
      s.collected.Perm ((gather Worker.dialed s.workers).filterMap
        (fun ad => workerBody ad.1 ad.2 f.bannerGrab)) ∧
      s.collected.length
        = ((gather Worker.dialed s.workers).filter (fun ad => ad.2.isConnected)).length ∧
      s.collected.length ≤ scanPorts.length ∧
      (∀ r ∈ s.collected, r.IsOpen = true)) := by
  have hc := Ctl_run f scanPorts es s hrun
  have hfl := Flow_run f scanPorts es s hrun
  refine ⟨?_, fun hnf => progress f scanPorts s hw hc hfl hnf, ?_⟩
  · intro hmax
    have := stepsLeft_run f scanPorts hmax es _ _ hrun (Ctl_init f) (Pool_init f)
    omega
  · intro hfin
    have h1 := dialed_perm_of_finished f scanPorts s hw hc hfl hfin
    have h2 := collected_perm_of_finished f scanPorts s hc hfl hfin
    rw [gather_dialedAddrs] at h1
    rw [gather_produced] at h2
    have h3 := h2.length_eq
    rw [length_results_of_log] at h3
    refine ⟨h1, (hc.finished hfin).2, h2, h3, ?_, ?_⟩
    · have := results_room f scanPorts s hfl
      omega
    · intro r hr
      exact isOpen_of_log _ _ r (h2.subset hr)

set_option maxRecDepth 100000 in
/-- C1, witness: the run of one worker over the ports 80 (open) and 81 (closed)
ends with one collected outcome for two targets. -/
theorem outcomes_are_the_connected_dials_witness :
    (endOf flagsOne [80, 81] runOneWorker).pc = .finished ∧
    (endOf flagsOne [80, 81] runOneWorker).collected.length = 1 ∧
    ((gather Worker.dialed (endOf flagsOne [80, 81] runOneWorker).workers).filter
      (fun ad => ad.2.isConnected)).length = 1 ∧
    (∀ r ∈ (endOf flagsOne [80, 81] runOneWorker).collected, r.IsOpen = true) :=
  have h := (outcomes_are_the_connected_dials flagsOne [80, 81] (by decide)
    runOneWorker (endOf flagsOne [80, 81] runOneWorker) (by decide)).2.2 (by decide)
  ⟨by decide, by decide, h.2.2.2.1.symm.trans (by decide), h.2.2.2.2.2⟩

/-- C5: for a target whose connect succeeds the outcome has `IsOpen = true`
whatever the banner read returns; with banner grabbing its banner is the bytes
read, at most 1024, when the read returns no error or an error that reads
`EOF`, and is empty for any other error; without banner grabbing the banner is
empty. -/
theorem open_port_outcome (addr : GoString) (r : ReadOutcome) (bannerGrab : Bool) :
    ∃ res, workerBody addr (.connected r) bannerGrab = some res ∧
      res.IsOpen = true ∧
      (bannerGrab = true → (r.err = none ∨ r.err = some "EOF".toList) →
        res.Banner = r.data.take 1024 ∧ res.Banner.length ≤ 1024) ∧
      (bannerGrab = true → r.err ≠ none → r.err ≠ some "EOF".toList → res.Banner = []) ∧
      (bannerGrab = false → res.Banner = []) := by
  refine ⟨_, workerBody_connected addr r bannerGrab, rfl, ?_, ?_, ?_⟩
  · intro hb he
    have he2 : r.err = none ∨ r.err = some ['E', 'O', 'F'] := he
    simp only [hb, he2, and_self, if_true, List.length_take, true_and]
    omega
  · intro hb h1 h2
    have he2 : ¬ (r.err = none ∨ r.err = some ['E', 'O', 'F']) := by
      rintro (h | h)
      · exact h1 h
      · exact h2 h
    simp only [he2, and_false, if_false]
  · intro hb
    simp only [hb, Bool.false_eq_true, false_and, if_false]

/-- C5, witness: a listener that sends `HELLO\n` yields an open outcome with the
banner `HELLO\n`. -/
theorem open_port_outcome_witness :
    ∃ res, workerBody "h:80".toList hello true = some res ∧
      res.IsOpen = true ∧ res.Banner = "HELLO\n".toList := by
  obtain ⟨res, h1, h2, h3, _, _⟩ := open_port_outcome "h:80".toList ⟨"HELLO\n".toList, none⟩ true
  exact ⟨res, h1, h2, (h3 rfl (Or.inl rfl)).1⟩

set_option maxRecDepth 100000 in
/-- C6, the code at the failing input: one worker, the ports 80 and 81, a
listener on 80.  When the worker has sent the result for port 80 and received
its next task, the connection to port 80 is still open: the deferred `Close`
runs only when `worker` returns. -/
theorem connection_still_open_at_next_task :
    (run flagsOne [80, 81] initState runToSecondTask).map
        (fun s => s.workers.map (fun w => (w.pc, w.conns)))
      = some [(.dial "h:81".toList, ["h:80".toList])] := by
  decide

/-- C7: from any state in which `openPorts` is the open part of what was
collected (at the start both are empty), under every schedule `openPorts` is
exactly the subsequence of the collected outcomes with `IsOpen = true`, in the
order of their arrival; for every sequence `rs` of outcomes in the closed
results stream the collecting loop ends having collected all of `rs` and added
to `openPorts` exactly the open outcomes of `rs`, in order; the total of ports
scanned is the number of enumerated ports, whatever the outcomes are. -/
theorem open_ports_in_arrival_order (f : Flags) (scanPorts : List Int) (s0 s : State)
    (es : List Event) (h0 : s0.openPorts = s0.collected.filter (fun r => r.IsOpen))
    (hrun : run f scanPorts s0 es = some s) :
    s.openPorts = s.collected.filter (fun r => r.IsOpen) ∧
    (∀ rs, s.panicked = false → s.pc = .collect → s.results = rs → s.resultsClosed = true →
      run f scanPorts s (List.replicate (rs.length + 1) .main)
        = some { s with pc := .finished, results := [], collected := s.collected ++ rs,
                        openPorts := s.openPorts ++ rs.filter (fun r => r.IsOpen) }) ∧
    totalPortsScanned scanPorts = scanPorts.length :=
  ⟨run_inv f scanPorts (fun t => t.openPorts = t.collected.filter (fun r => r.IsOpen))
    (openPorts_step f scanPorts) es s0 s hrun h0,
   fun rs => collect_drain f scanPorts rs s, rfl⟩

/-- C7, witness: `main` collects an open, a closed and an open outcome from a
closed stream; all three are counted as collected, the two open ones are kept,
in arrival order. -/
theorem open_ports_in_arrival_order_witness :
    run flagsOne [80, 81, 82] collecting [.main, .main, .main, .main] = some collectedAll ∧
    collectedAll.collected = someResults ∧
    collectedAll.openPorts = someResults.filter (fun r => r.IsOpen) ∧
    collectedAll.openPorts.map (fun r => r.Port) = [80, 82] ∧
    totalPortsScanned [80, 81, 82] = 3 :=
  have h := open_ports_in_arrival_order flagsOne [80, 81, 82] collecting collecting [] rfl rfl
  ⟨h.2.1 someResults rfl rfl rfl rfl, rfl, rfl, rfl, h.2.2⟩

/-- C8: with one worker, under every schedule and every behaviour of the
network, the program takes a bounded number of steps and can always go on until
`main` is through; at every moment what the worker has dialed, the address it
holds, the queue and what is still to be sent make up the enumeration in its
order; at the end the worker has dialed exactly the enumerated addresses in the
order of the enumeration, `openPorts` holds the results of the dials that
connected, in that order, and the ports reported open are exactly the
enumerated ports whose connect succeeded, for every target host (the ports
being Go ints, as their type says). -/
theorem single_worker_dials_in_order (f : Flags) (scanPorts : List Int)
    (h1 : f.workers = 1) (es : List Event) (s : State)
    (hrun : run f scanPorts initState es = some s) :
    es.length ≤ stepsLeft f scanPorts initState ∧
    (s.pc ≠ .finished → canStep f scanPorts s) ∧
    s.workers.length ≤ 1 ∧
    gather dialedAddrs s.workers ++ gather inflight s.workers ++ s.tasks
      ++ unfed f scanPorts s = enumeratedAddrs f scanPorts ∧
    (s.pc = .finished →
      ∃ w, s.workers = [w] ∧ w.pc = .done ∧
        w.dialed.map Prod.fst = enumeratedAddrs f scanPorts ∧
        s.openPorts = w.dialed.filterMap (fun ad => workerBody ad.1 ad.2 f.bannerGrab) ∧
        ((∀ p ∈ scanPorts, isGoInt p) →
          s.openPorts.map (fun r => r.Port)
            = ((scanPorts.zip (w.dialed.map Prod.snd)).filter
                (fun pd => pd.2.isConnected)).map Prod.fst)) := by
  have hw : 1 ≤ f.workers := by omega
  have hmax : f.workers < maxInt := by rw [h1]; decide
  have hc := Ctl_run f scanPorts es s hrun
  have hfl := Flow_run f scanPorts es s hrun
  have hse := Serial_run f scanPorts h1 es s hrun
  refine ⟨?_, fun hnf => progress f scanPorts s hw hc hfl hnf, hse.atMostOne, hse.tasksOrder, ?_⟩
  · have := stepsLeft_run f scanPorts hmax es _ _ hrun (Ctl_init f) (Pool_init f)
    omega
  · intro hfin
    have hne : s.workers ≠ [] := hc.spawned (by simp [hfin]) hw
    have hone := hse.atMostOne
    cases hws : s.workers with
    | nil => exact absurd hws hne
    | cons w ws =>
      cases ws with
      | cons x xs => rw [hws] at hone; simp at hone
      | nil =>
        have hd : w.pc = .done := all_done_of_finished f s hc hfin w (by simp [hws])
        have ht := hse.tasksOrder
        have hr := hse.resultsOrder
        simp only [hws, gather, dialedAddrs, inflight, hd, tasks_nil_of_finished f s hw hc hfin,
          unfed, hfin, List.append_nil] at ht
        simp only [hws, gather, pendingSend, produced, hd, (hc.finished hfin).2,
          List.append_nil] at hr
        have hopen : s.openPorts = s.collected :=
          openPorts_eq_collected f scanPorts s hfl
            (fun r hr2 => isOpen_of_log f.bannerGrab w.dialed r (by rw [← hr]; exact hr2))
        refine ⟨w, rfl, hd, ht, by rw [hopen, hr], ?_⟩
        intro hints
        rw [hopen, hr]
        exact ports_of_log f scanPorts w.dialed ht hints
          (Dialable_run f scanPorts es s hrun w (by simp [hws]))

set_option maxRecDepth 100000 in
/-- C8, witness: one worker over the ports 80 (open) and 81 (closed) dials
`h:80` then `h:81` and reports port 80; with the host `[127.0.0.1]` and a
listener on port 80 it reports port 80; with the host `[::1]` the address
`[[::1]]:80` does not split, the dial fails and no port is reported. -/
theorem single_worker_dials_in_order_witness :
    (∃ w, (endOf flagsOne [80, 81] runOneWorker).workers = [w] ∧ w.pc = .done ∧
      w.dialed.map Prod.fst = ["h:80".toList, "h:81".toList] ∧
      (endOf flagsOne [80, 81] runOneWorker).openPorts.map (fun r => r.Port) = [80]) ∧
    (endOf flagsBracketed [80] runOnePort).openPorts.map (fun r => r.Port) = [80] ∧
    (endOf flagsBracketed6 [80] runOnePortFailed).openPorts.map (fun r => r.Port) = [] := by
  refine ⟨?_, ?_, ?_⟩
  · obtain ⟨w, h1, h2, h3, h4, h5⟩ :=
      (single_worker_dials_in_order flagsOne [80, 81] (by decide) runOneWorker
        (endOf flagsOne [80, 81] runOneWorker) (by decide)).2.2.2.2 (by decide)
    refine ⟨w, h1, h2, h3.trans (by decide), ?_⟩
    have hw : w = ⟨.done, [], [("h:80".toList, hello), ("h:81".toList, .failed)]⟩ := by
      have e : (endOf flagsOne [80, 81] runOneWorker).workers
          = [⟨.done, [], [("h:80".toList, hello), ("h:81".toList, .failed)]⟩] := by decide
      rw [e] at h1
      exact (List.cons.inj h1).1.symm
    rw [h5 (by decide), hw]
    decide
  · obtain ⟨w, h1, h2, h3, h4, h5⟩ :=
      (single_worker_dials_in_order flagsBracketed [80] (by decide) runOnePort
        (endOf flagsBracketed [80] runOnePort) (by decide)).2.2.2.2 (by decide)
    have hw : w = ⟨.done, [], [("[127.0.0.1]:80".toList, hello)]⟩ := by
      have e : (endOf flagsBracketed [80] runOnePort).workers
          = [⟨.done, [], [("[127.0.0.1]:80".toList, hello)]⟩] := by decide
      rw [e] at h1
      exact (List.cons.inj h1).1.symm
    rw [h5 (by decide), hw]
    decide
  · obtain ⟨w, h1, h2, h3, h4, h5⟩ :=
      (single_worker_dials_in_order flagsBracketed6 [80] (by decide) runOnePortFailed
        (endOf flagsBracketed6 [80] runOnePortFailed) (by decide)).2.2.2.2 (by decide)
    have hw : w = ⟨.done, [], [("[[::1]]:80".toList, .failed)]⟩ := by
      have e : (endOf flagsBracketed6 [80] runOnePortFailed).workers
          = [⟨.done, [], [("[[::1]]:80".toList, .failed)]⟩] := by decide
      rw [e] at h1
      exact (List.cons.inj h1).1.symm
    rw [h5 (by decide), hw]
    decide

/-- C9: with at least one worker, under every schedule no goroutine panics (in
particular nothing is sent on the closed results stream); at every moment every
enumerated address is in exactly one place: dialed by one worker, held by one
worker, in the task queue, or still to be sent, so no task is delivered twice
and none is lost; `results` is closed only when all workers have been started
and every one of them has returned; and at the end every enumerated address has
been dialed by exactly one worker. -/
theorem each_task_to_one_worker (f : Flags) (scanPorts : List Int) (hw : 1 ≤ f.workers)
    (es : List Event) (s : State) (hrun : run f scanPorts initState es = some s) :
    s.panicked = false ∧
    (gather dialedAddrs s.workers ++ gather inflight s.workers ++ s.tasks
      ++ unfed f scanPorts s).Perm (enumeratedAddrs f scanPorts) ∧
    (s.resultsClosed = true →
      (∀ i, s.pc ≠ .spawn i) ∧ (∀ w ∈ s.workers, w.pc = .done) ∧
      (f.workers < maxInt → s.workers.length = f.workers.toNat)) ∧
    (s.pc = .finished → s.resultsClosed = true ∧
      (gather dialedAddrs s.workers).Perm (enumeratedAddrs f scanPorts)) := by
  have hc := Ctl_run f scanPorts es s hrun
  have hfl := Flow_run f scanPorts es s hrun
  refine ⟨hc.noPanic, hfl.tasksPerm, ?_, ?_⟩
  · intro hcl
    have hns : ∀ i, s.pc ≠ .spawn i := by
      intro i hi
      have h1 := hc.resultsClosed_iff.1 hcl
      have h2 := hc.closer_started.2 (by simp [hi])
      rw [h1] at h2
      exact CloserPc.noConfusion h2
    exact ⟨hns, all_done_of_closed f s hc hcl,
      fun hmax => (Pool_run f scanPorts hmax es s hrun).started hns⟩
  · intro hfin
    exact ⟨(hc.finished hfin).1, dialed_perm_of_finished f scanPorts s hw hc hfl hfin⟩

set_option maxRecDepth 100000 in
/-- C9, witness: two workers over the ports 80 and 81; the second worker dials
`h:80`, the first `h:81`, and `results` is closed with both returned. -/
theorem each_task_to_one_worker_witness :
    (endOf flagsTwo [80, 81] runTwoWorkers).workers.map (fun w => (w.pc, dialedAddrs w))
      = [(.done, ["h:81".toList]), (.done, ["h:80".toList])] ∧
    (endOf flagsTwo [80, 81] runTwoWorkers).resultsClosed = true ∧
    (gather dialedAddrs (endOf flagsTwo [80, 81] runTwoWorkers).workers).Perm
      (enumeratedAddrs flagsTwo [80, 81]) :=
  have h := each_task_to_one_worker flagsTwo [80, 81] (by decide) runTwoWorkers
    (endOf flagsTwo [80, 81] runTwoWorkers) (by decide)
  ⟨by decide, (h.2.2.2 (by decide)).1, (h.2.2.2 (by decide)).2⟩

/-- C10: for a host without `[` and `]` and a port `p` that is a Go `int`,
`extractPortFromAddr` returns `p` for the address that `main` builds with
`JoinHostPort` and `Itoa`, so every result a worker builds for that address
carries the port `p`. -/
theorem reported_port_is_enumerated_port (host : GoString) (p : Int)
    (ho : '[' ∉ host) (hc : ']' ∉ host) (hp : isGoInt p) :
    extractPortFromAddr (JoinHostPort host (Itoa p)) = p ∧
    ∀ d bannerGrab res,
      workerBody (JoinHostPort host (Itoa p)) d bannerGrab = some res → res.Port = p := by
  have h := extractPort_JoinHostPort host p ho hc hp
  refine ⟨h, ?_⟩
  intro d b res hres
  rw [(workerBody_isOpen _ _ _ _ hres).2.2, h]

/-- C10, witness: the IPv6 host `::1` and the port 443. -/
theorem reported_port_is_enumerated_port_witness :
    extractPortFromAddr (JoinHostPort "::1".toList (Itoa 443)) = 443 ∧
    ∀ d bannerGrab res,
      workerBody (JoinHostPort "::1".toList (Itoa 443)) d bannerGrab = some res →
        res.Port = 443 :=
  reported_port_is_enumerated_port "::1".toList 443 (by decide) (by decide) (by decide)

end PortScanner
